import Mathlib

/-!
Shallow embedding of the hybrid code-search core:
the BM25 sparse encoder (tokenizer, vocabulary builder, embed,
export/import/clear), the vector-store adapter's id mapping, filter
expression parser, hybrid search dispatch and rank fusion, and the
hybrid insert point construction.

Numbers: the source computes with IEEE doubles; scores are modelled as
exact rationals.  The one transcendental function used by the source
(natural logarithm, for IDF and sublinear TF) is abstracted as an
arbitrary parameter `mlog : Rat → Rat`; no claim here depends on the
value of the logarithm.  JavaScript 32-bit integer coercions are
modelled exactly over `Int`.
-/

/-! ### Tokenizer (SparseEmbedding.tokenize / tokenizeCode / tokenizeSimple) -/

/-- Character codes of the code-mode delimiter class
`[\s,;:{}()\[\]<>'"=+\-*/\\|&^%$#@!~` + backtick `]`
(ASCII whitespace covers the inputs that occur here). -/
def codeDelimCodes : List Nat :=
  [32, 9, 10, 13, 11, 12,
   44, 59, 58, 123, 125, 40, 41, 91, 93, 60, 62, 39, 34,
   61, 43, 45, 42, 47, 92, 124, 38, 94, 37, 36, 35, 64, 33, 126, 96]

def isCodeDelim (c : Char) : Bool := c.toNat ∈ codeDelimCodes

def isSpaceChar (c : Char) : Bool :=
  c.toNat = 32 ∨ c.toNat = 9 ∨ c.toNat = 10 ∨ c.toNat = 13 ∨
  c.toNat = 11 ∨ c.toNat = 12

def isLowerAZ (c : Char) : Bool := 97 ≤ c.toNat ∧ c.toNat ≤ 122

def isUpperAZ (c : Char) : Bool := 65 ≤ c.toNat ∧ c.toNat ≤ 90

def isDigitChar (c : Char) : Bool := 48 ≤ c.toNat ∧ c.toNat ≤ 57

/-- Split a character list into the segments between runs of delimiters
(the source's `text.split(/[...]+/)`; empty segments are produced at the
boundaries exactly as in JavaScript and are skipped by the caller). -/
def splitOnPred (p : Char → Bool) : List Char → List Char → List (List Char)
  | [], acc => [acc.reverse]
  | c :: cs, acc =>
    if p c then acc.reverse :: splitOnPred p cs []
    else splitOnPred p cs (c :: acc)

def splitBy (p : Char → Bool) (l : List Char) : List (List Char) :=
  splitOnPred p l []

/-- `segment.replace(/([a-z])([A-Z])/g, "$1 $2")`: insert a space between a
lowercase letter and an immediately following uppercase letter.  The two
character classes are disjoint, so matches of the regex never overlap and
the global replace is exactly this pairwise insertion. -/
def camelSplit : List Char → List Char
  | [] => []
  | [c] => [c]
  | a :: b :: rest =>
    if isLowerAZ a ∧ isUpperAZ b then a :: ' ' :: camelSplit (b :: rest)
    else a :: camelSplit (b :: rest)

def isUnderscoreDash (c : Char) : Bool := c.toNat = 95 ∨ c.toNat = 45

/-- `.replace(/[_-]+/g, " ")`: each maximal run of `_`/`-` becomes one
space.  `prevUD` records whether the previous character belonged to the
current run. -/
def underscoreSplitGo : Bool → List Char → List Char
  | _, [] => []
  | prevUD, c :: cs =>
    if isUnderscoreDash c then
      if prevUD then underscoreSplitGo true cs
      else ' ' :: underscoreSplitGo true cs
    else c :: underscoreSplitGo false cs

def underscoreSplit (l : List Char) : List Char := underscoreSplitGo false l

/-- `.replace(/([A-Z]+)([A-Z][a-z])/g, "$1 $2")`: a space goes between two
uppercase letters whose successor is lowercase; with greedy matching and
resumption after each match this is exactly the triple-wise rule. -/
def acronymSplit : List Char → List Char
  | a :: b :: c :: rest =>
    if isUpperAZ a ∧ isUpperAZ b ∧ isLowerAZ c then
      a :: ' ' :: acronymSplit (b :: c :: rest)
    else a :: acronymSplit (b :: c :: rest)
  | l => l

/-- The fixed stop list of `isStopToken`. -/
def stopTokens : List String :=
  ["the", "is", "at", "of", "on", "and", "or", "to", "in", "it",
   "for", "as", "be", "by", "an", "if", "do", "no", "so",
   "var", "let", "const", "this", "that", "new", "null", "true", "false"]

def isStopToken (t : String) : Bool := t ∈ stopTokens

/-- One segment of `tokenizeCode`: camelCase split, snake/kebab split,
acronym split, split on whitespace, lowercase, and keep the tokens of
length > 1 that are not stop tokens. -/
def codeSegTokens (seg : List Char) : List String :=
  let parts := splitBy isSpaceChar (acronymSplit (underscoreSplit (camelSplit seg)))
  (parts.map fun p => p.map Char.toLower).filterMap fun lower =>
    if lower.length > 1 ∧ ¬ isStopToken (String.mk lower) then
      some (String.mk lower)
    else none

def tokenizeCode (text : String) : List String :=
  ((splitBy isCodeDelim text.toList).filter (· ≠ [])).flatMap codeSegTokens

/-- ASCII characters in the Unicode punctuation category `\p{P}`. -/
def isSimplePunct (c : Char) : Bool :=
  c.toNat ∈ [33, 34, 35, 37, 38, 39, 40, 41, 42, 44, 45, 46, 47,
             58, 59, 63, 64, 91, 92, 93, 95, 123, 125]

/-- `tokenizeSimple`: lowercase, split on whitespace/punctuation runs,
keep tokens of length > 1. -/
def tokenizeSimple (text : String) : List String :=
  ((splitBy (fun c => isSpaceChar c ∨ isSimplePunct c)
      (text.toList.map Char.toLower)).filter (fun t => t.length > 1)).map String.mk

inductive TokenMode | simple | code
deriving DecidableEq

def tokenizeIn (mode : TokenMode) (text : String) : List String :=
  match mode with
  | .code => tokenizeCode text
  | .simple => tokenizeSimple text

/-! ### SparseEmbedding state and operations -/

structure SparseVec where
  indices : List Nat
  values : List Rat
deriving DecidableEq

/-- `Required<SparseEmbeddingConfig>` (the field the source calls
`maxDfRatio` is named `maxDfFrac` here). -/
structure EncConfig where
  k1 : Rat
  b : Rat
  minDf : Rat
  maxDfFrac : Rat
  sublinearTf : Bool
  tokenMode : TokenMode
deriving DecidableEq

/-- The defaults applied by the `SparseEmbedding` constructor. -/
def defaultEncConfig : EncConfig :=
  { k1 := 6/5, b := 3/4, minDf := 1, maxDfFrac := 17/20,
    sublinearTf := false, tokenMode := .code }

/-- The mutable fields of a `SparseEmbedding` instance.  The three
JavaScript `Map`s are modelled as insertion-ordered association lists
with unique keys. -/
structure EncState where
  config : EncConfig
  vocabulary : List (String × Nat)
  documentFrequency : List (String × Nat)
  totalDocuments : Nat
  avgDocumentLength : Rat
  idfCache : List (String × Rat)
  isInitialized : Bool
deriving DecidableEq

/-- A freshly constructed `SparseEmbedding` with the given config. -/
def initEncState (cfg : EncConfig) : EncState :=
  { config := cfg, vocabulary := [], documentFrequency := [],
    totalDocuments := 0, avgDocumentLength := 0, idfCache := [],
    isInitialized := false }

def lookupStr {α : Type} (l : List (String × α)) (k : String) : Option α :=
  List.lookup k l

/-- JavaScript `Set` iteration order is insertion order; dedup keeping
first occurrences. -/
def insertionDedupGo : List String → List String → List String
  | _, [] => []
  | seen, t :: ts =>
    if t ∈ seen then insertionDedupGo seen ts
    else t :: insertionDedupGo (t :: seen) ts

def insertionDedup (l : List String) : List String := insertionDedupGo [] l

/-- Add one document index to `termDocs` for one term (the
`termDocs.get(term)!.add(docIndex)` step; a doc index is added at most
once per term because terms are deduplicated within a document first). -/
def addTermDoc : List (String × Nat) → String → List (String × Nat)
  | [], t => [(t, 1)]
  | (u, n) :: rest, t =>
    if u = t then (u, n + 1) :: rest else (u, n) :: addTermDoc rest t

/-- Accumulate document frequencies over a document list, in JavaScript
`Map` insertion order. -/
def termDocCounts (mode : TokenMode) (docs : List String) : List (String × Nat) :=
  docs.foldl (fun acc doc =>
    (insertionDedup (tokenizeIn mode doc)).foldl addTermDoc acc) []

/-- The vocabulary/DF/IDF-building loop of `buildVocabulary`: terms with
`minDf ≤ df ≤ maxDf` get consecutive indices starting at `nextIdx`. -/
def buildTables (mlog : Rat → Rat) (minDf : Rat) (maxDf : Int) (total : Nat)
    (nextIdx : Nat) :
    List (String × Nat) → List (String × Nat) × List (String × Nat) × List (String × Rat)
  | [] => ([], [], [])
  | (term, df) :: rest =>
    if minDf ≤ (df : Rat) ∧ (df : Int) ≤ maxDf then
      let prev := buildTables mlog minDf maxDf total (nextIdx + 1) rest
      ((term, nextIdx) :: prev.1, (term, df) :: prev.2.1,
       (term, mlog (((total : Rat) - (df : Rat) + 1/2) / ((df : Rat) + 1/2) + 1)) :: prev.2.2)
    else
      buildTables mlog minDf maxDf total nextIdx rest

/-- `buildVocabulary(documents)`.  Note: the early return for an empty
document list clears the three tables and sets `totalDocuments = 0` and
`isInitialized = true`, but does not touch `avgDocumentLength`. -/
def buildVocabulary (mlog : Rat → Rat) (s : EncState) (docs : List String) : EncState :=
  if docs = [] then
    { s with vocabulary := [], documentFrequency := [], idfCache := [],
             totalDocuments := 0, isInitialized := true }
  else
    let totalLength := (docs.map fun d => (tokenizeIn s.config.tokenMode d).length).sum
    let counts := termDocCounts s.config.tokenMode docs
    let maxDf : Int := Int.floor (s.config.maxDfFrac * (docs.length : Rat))
    let (vs, ds, is) := buildTables mlog s.config.minDf maxDf docs.length 0 counts
    { s with vocabulary := vs, documentFrequency := ds, idfCache := is,
             totalDocuments := docs.length,
             avgDocumentLength := (totalLength : Rat) / (docs.length : Rat),
             isInitialized := true }

def getVocabularySize (s : EncState) : Nat := s.vocabulary.length

/-- Count in-vocabulary term frequencies of a token list, in `Map`
insertion order (`termFreq` in `embed`). -/
def termFreqOf (vocab : List (String × Nat)) (tokens : List String) :
    List (String × Nat) :=
  tokens.foldl (fun acc tok =>
    if (lookupStr vocab tok).isSome then addTermDoc acc tok else acc) []

/-- The per-term BM25 score of `embed` exactly as the source computes it:
`idf * (adjustedTf * (k1 + 1)) / (adjustedTf + k1 * (1 - b + b * (docLen / (avg || 1))))`,
where `avg || 1` is JavaScript truthiness: `1` when `avg = 0`, else `avg`. -/
def bm25Score (mlog : Rat → Rat) (cfg : EncConfig) (avg : Rat) (docLen : Nat)
    (idf : Rat) (tf : Nat) : Rat :=
  let adjustedTf : Rat := if cfg.sublinearTf then 1 + mlog (tf : Rat) else (tf : Rat)
  let numer := adjustedTf * (cfg.k1 + 1)
  let denom := adjustedTf +
    cfg.k1 * (1 - cfg.b + cfg.b * ((docLen : Rat) / (if avg = 0 then 1 else avg)))
  idf * (numer / denom)

/-- The emit loop of `embed`: for each `(term, tf)` look up index and IDF,
compute the BM25 score, and push `(index, score)` iff `score > 0`. -/
def emitScores (mlog : Rat → Rat) (cfg : EncConfig) (avg : Rat) (docLen : Nat)
    (vocab : List (String × Nat)) (idfC : List (String × Rat)) :
    List (String × Nat) → List Nat × List Rat
  | [] => ([], [])
  | (term, tf) :: rest =>
    let index := (lookupStr vocab term).getD 0
    let idf := (lookupStr idfC term).getD 0
    let score := bm25Score mlog cfg avg docLen idf tf
    let prev := emitScores mlog cfg avg docLen vocab idfC rest
    if 0 < score then (index :: prev.1, score :: prev.2) else prev

/-- `embed(text)`, returning the (possibly auto-initialized) state and
the sparse vector. -/
def embed (mlog : Rat → Rat) (s : EncState) (text : String) : EncState × SparseVec :=
  let s1 := if s.isInitialized then s else buildVocabulary mlog s [text]
  let tokens := tokenizeIn s1.config.tokenMode text
  if tokens.length = 0 then (s1, ⟨[], []⟩)
  else
    let tf := termFreqOf s1.vocabulary tokens
    let (is, vs) :=
      emitScores mlog s1.config s1.avgDocumentLength tokens.length
        s1.vocabulary s1.idfCache tf
    (s1, ⟨is, vs⟩)

/-- The six-field state container of `exportState` (`config` is optional
only on import). -/
structure EncStateContainer where
  vocabulary : List (String × Nat)
  documentFrequency : List (String × Nat)
  idfCache : List (String × Rat)
  totalDocuments : Nat
  avgDocumentLength : Rat
  config : Option EncConfig
deriving DecidableEq

def exportState (s : EncState) : EncStateContainer :=
  { vocabulary := s.vocabulary, documentFrequency := s.documentFrequency,
    idfCache := s.idfCache, totalDocuments := s.totalDocuments,
    avgDocumentLength := s.avgDocumentLength, config := some s.config }

def importState (s : EncState) (c : EncStateContainer) : EncState :=
  { config := c.config.getD s.config,
    vocabulary := c.vocabulary, documentFrequency := c.documentFrequency,
    idfCache := c.idfCache, totalDocuments := c.totalDocuments,
    avgDocumentLength := c.avgDocumentLength, isInitialized := true }

def clear (s : EncState) : EncState :=
  { s with vocabulary := [], documentFrequency := [], idfCache := [],
           totalDocuments := 0, avgDocumentLength := 0, isInitialized := false }

/-! ### QdrantVectorDatabase.stringToUuid -/

/-- JavaScript `ToInt32`: wrap to the signed 32-bit range. -/
def int32 (n : Int) : Int := (n + 2 ^ 31) % 2 ^ 32 - 2 ^ 31

/-- One step of the `stringToUuid` hash loops:
`hash = (hash << 5) - hash + charCode` followed by coercion to Int32
(`hash = hash & hash` in the first loop, `| 0` in the second; both loops
compute the same function). -/
def hashStep (h : Int) (c : Nat) : Int := int32 (int32 (h * 32) - h + (c : Int))

def jsHash (codes : List Nat) : Int := codes.foldl hashStep 0

/-- `Number.prototype.toString(16)` for naturals (lowercase hex). -/
def toHex (n : Nat) : List Char := Nat.toDigits 16 n

/-- `String.prototype.padStart(n, "0")`. -/
def padZeroStart (n : Nat) (l : List Char) : List Char :=
  List.replicate (n - l.length) '0' ++ l

/-- `String.prototype.slice(-4)`. -/
def sliceLastFour (l : List Char) : List Char := l.drop (l.length - 4)

/-- `stringToUuid(str)` over the character codes of `str`, with the
`Date.now()` value it reads as an explicit argument `now`. -/
def stringToUuid (codes : List Nat) (now : Nat) : String :=
  let hash := jsHash codes
  let positiveHash := hash.natAbs
  let hex := padZeroStart 8 (toHex positiveHash)
  let hex2 := padZeroStart 4 (toHex codes.length)
  let hex3 := sliceLastFour (toHex now)
  let fullHash := jsHash codes
  let hex4 := (padZeroStart 4 (toHex fullHash.natAbs)).take 4
  let hex5 := (padZeroStart 12 (toHex (Int.fdiv fullHash 65536).natAbs)).take 12
  String.mk (hex.take 8 ++ '-' :: hex2 ++ '-' :: '4' :: hex3.drop 1 ++
             '-' :: hex4 ++ '-' :: hex5)

def strCodes (s : String) : List Nat := s.toList.map Char.toNat

/-! ### QdrantVectorDatabase.parseFilterExpression

The three regular expressions of the source are embedded by explicit
leftmost-match scanners with the exact backtracking behaviour of the
patterns involved. -/

def isWordChar (c : Char) : Bool :=
  isLowerAZ c ∨ isUpperAZ c ∨ isDigitChar c ∨ c.toNat = 95

def isQuoteChar (c : Char) : Bool := c.toNat = 34 ∨ c.toNat = 39

/-- The backend filter values returned by `parseFilterExpression`:
`should` / `must` / `must_not` lists of `(key, match-value)` conditions. -/
inductive QFilter
  | should (conds : List (String × String))
  | must (conds : List (String × String))
  | mustNot (conds : List (String × String))
deriving DecidableEq

/-- Match `/(\w+)\s+in\s+\[([^\]]+)\]/i` anchored at the start of `l`
(greedy `\w+`/`\s+` runs are forced because the adjacent character
classes are disjoint; `([^\]]+)` captures up to the first `]`). -/
def matchInAt (l : List Char) : Option (List Char × List Char) :=
  let w := l.takeWhile isWordChar
  if w = [] then none else
  let r1 := l.dropWhile isWordChar
  if r1.takeWhile isSpaceChar = [] then none else
  match r1.dropWhile isSpaceChar with
  | i :: n :: r2 =>
    if i.toLower = 'i' ∧ n.toLower = 'n' then
      if r2.takeWhile isSpaceChar = [] then none else
      match r2.dropWhile isSpaceChar with
      | lb :: r3 =>
        if lb.toNat = 91 then
          let content := r3.takeWhile (fun c => c.toNat ≠ 93)
          if content = [] then none
          else if r3.dropWhile (fun c => c.toNat ≠ 93) = [] then none
          else some (w, content)
        else none
      | [] => none
    else none
  | _ => none

/-- `["']?([^"']+)` at a fixed position: prefer consuming a quote, then
take the maximal nonempty run of non-quote characters. -/
def tryValueAt : List Char → Option (List Char)
  | [] => none
  | q :: t =>
    if isQuoteChar q then
      let v := t.takeWhile (fun c => ¬ isQuoteChar c)
      if v = [] then none else some v
    else some ((q :: t).takeWhile (fun c => ¬ isQuoteChar c))

/-- Backtracking over the `\s*` before the optional quote: first try with
all spaces consumed (the greedy preference), then give one space at a
time back to `([^"']+)`. -/
def valueBacktrack : List Char → List Char → Option (List Char)
  | [], rem => tryValueAt rem
  | s :: ss, rem =>
    match tryValueAt rem with
    | some v => some v
    | none => valueBacktrack ss (s :: rem)

/-- Match `/(\w+)\s*OPOP\s*["']?([^"']+)["']?/` anchored at the start of
`l`, where `OPOP` is the two-character operator (`==` or `!=`). -/
def matchCmpAt (op1 op2 : Char) (l : List Char) : Option (List Char × List Char) :=
  let w := l.takeWhile isWordChar
  if w = [] then none else
  let r1 := l.dropWhile isWordChar
  match r1.dropWhile isSpaceChar with
  | a :: b :: r3 =>
    if a = op1 ∧ b = op2 then
      let sp := r3.takeWhile isSpaceChar
      match valueBacktrack sp.reverse (r3.dropWhile isSpaceChar) with
      | some v => some (w, v)
      | none => none
    else none
  | _ => none

/-- Leftmost match: try the anchored matcher at every start position from
the left. -/
def scanMatch {β : Type} (f : List Char → Option β) : List Char → Option β
  | [] => f []
  | l@(_ :: rest) =>
    match f l with
    | some r => some r
    | none => scanMatch f rest

/-- `String.prototype.split(",")`: every comma splits, empty pieces kept. -/
def splitCommaGo : List Char → List Char → List (List Char)
  | [], acc => [acc.reverse]
  | c :: cs, acc =>
    if c.toNat = 44 then acc.reverse :: splitCommaGo cs []
    else splitCommaGo cs (c :: acc)

def splitComma (l : List Char) : List (List Char) := splitCommaGo l []

/-- `String.prototype.trim()`. -/
def trimChars (l : List Char) : List Char :=
  ((l.dropWhile isSpaceChar).reverse.dropWhile isSpaceChar).reverse

/-- `.replace(/['"]/g, "")`. -/
def removeQuotes (l : List Char) : List Char := l.filter (fun c => ¬ isQuoteChar c)

/-- `parseFilterExpression(expr)`: the returned filter (or none) paired
with whether the could-not-parse warning was logged.  The empty /
whitespace-only early return produces no filter and no warning. -/
def parseFilterExpression (expr : String) : Option QFilter × Bool :=
  let l := expr.toList
  if l.all isSpaceChar then (none, false)
  else
    match scanMatch matchInAt l with
    | some (field, valuesStr) =>
      let values := (splitComma valuesStr).map fun v =>
        String.mk (removeQuotes (trimChars v))
      (some (.should (values.map fun v => (String.mk field, v))), false)
    | none =>
      match scanMatch (matchCmpAt '=' '=') l with
      | some (field, v) => (some (.must [(String.mk field, String.mk v)]), false)
      | none =>
        match scanMatch (matchCmpAt '!' '=') l with
        | some (field, v) => (some (.mustNot [(String.mk field, String.mk v)]), false)
        | none => (none, true)

/-! ### QdrantVectorDatabase.hybridSearch and applyReranking -/

inductive ReqData
  | dense (v : List Rat)
  | sparse (sv : SparseVec)
  | text (s : String)
deriving DecidableEq

/-- One `HybridSearchRequest` (only the fields the dispatcher reads). -/
structure HybridRequest where
  data : ReqData
  annsKey : Option String
  limit : Option Nat
deriving DecidableEq

/-- A point payload as read back from the backend; every field is
optional exactly as the untyped `result.payload as any` access is. -/
structure HitPayload where
  id : Option String
  content : Option String
  relativePath : Option String
  startLine : Option Nat
  endLine : Option Nat
  fileExtension : Option String
  metadata : List (String × String)
deriving DecidableEq

structure SearchHit where
  pointId : String
  payload : HitPayload
  score : Rat
deriving DecidableEq

/-- The vector argument of one backend `client.search` call. -/
inductive QueryVec
  | namedSparse (sv : SparseVec)
  | namedDense (v : List Rat)
  | unnamed (v : List Rat)
deriving DecidableEq

structure BackendCall where
  vec : QueryVec
  limit : Nat
  filt : Option QFilter
deriving DecidableEq

structure RerankSpec where
  strategy : String
  k : Option Rat
  weights : Option (List Rat)
deriving DecidableEq

structure HybridOptions where
  limit : Option Nat
  filterExpr : Option String
  rerank : Option RerankSpec
deriving DecidableEq

/-- JavaScript `x || d` for an optional number. -/
def jsOrNum (x : Option Nat) (d : Nat) : Nat :=
  match x with
  | some n => if n = 0 then d else n
  | none => d

def jsOrRat (x : Option Rat) (d : Rat) : Rat :=
  match x with
  | some q => if q = 0 then d else q
  | none => d

/-- `String.prototype.includes`. -/
def includesSub (needle : List Char) : List Char → Bool
  | [] => needle.isEmpty
  | l@(_ :: rest) => needle.isPrefixOf l || includesSub needle rest

def jsOrStr (x : Option String) (d : String) : String :=
  match x with
  | some s => if s = "" then d else s
  | none => d

/-- `isSparseVector(data)`: the data is an object with `indices` and
`values` fields. -/
def isSparseVectorData : ReqData → Bool
  | .sparse _ => true
  | _ => false

/-- `request.anns_field === "sparse_vector" || === "sparse" ||
?.includes("sparse")`. -/
def isSparseFieldOf (annsKey : Option String) : Bool :=
  match annsKey with
  | some f => f = "sparse_vector" ∨ f = "sparse" ∨
      includesSub "sparse".toList f.toList
  | none => false

/-- The filter used in every request iteration:
`options?.filterExpr ? parse(...) : undefined` (only the filter component
of the parse result reaches the backend call). -/
def optionsFilter (opts : HybridOptions) : Option QFilter :=
  match opts.filterExpr with
  | some e => if e = "" then none else (parseFilterExpression e).1
  | none => none

/-- Decide what backend call (if any) one request issues: text requests
and empty (or shape-mismatched) sparse requests are skipped. -/
def requestCall (isHybrid : Bool) (opts : HybridOptions) (req : HybridRequest) :
    Option BackendCall :=
  let lim := jsOrNum opts.limit 10
  match req.data with
  | .text _ => none
  | .sparse sv =>
    if sv.indices = [] then none
    else some { vec := .namedSparse sv, limit := jsOrNum req.limit lim,
                filt := optionsFilter opts }
  | .dense v =>
    if isSparseFieldOf req.annsKey then
      none
    else
      some { vec := if isHybrid then .namedDense v else .unnamed v,
             limit := jsOrNum req.limit lim, filt := optionsFilter opts }

/-- The document reconstructed from a hit's payload inside the result
accumulation loop. -/
structure VDoc where
  id : String
  vector : List Rat
  content : String
  relativePath : String
  startLine : Nat
  endLine : Nat
  fileExtension : String
  metadata : List (String × String)
deriving DecidableEq

def docIdOf (h : SearchHit) : String := jsOrStr h.payload.id h.pointId

def docOfHit (reqData : ReqData) (h : SearchHit) : VDoc :=
  { id := docIdOf h,
    vector := match reqData with | .dense v => v | _ => [],
    content := jsOrStr h.payload.content "",
    relativePath := jsOrStr h.payload.relativePath "",
    startLine := (h.payload.startLine).getD 0,
    endLine := (h.payload.endLine).getD 0,
    fileExtension := jsOrStr h.payload.fileExtension "",
    metadata := h.payload.metadata }

/-- The `allResults` map: docId to document (from the first channel that
returned it) and the per-channel scores appended in query order. -/
abbrev ResultAcc := List (String × VDoc × List Rat)

def addHit (acc : ResultAcc) (docId : String) (doc : VDoc) (score : Rat) :
    ResultAcc :=
  match acc with
  | [] => [(docId, doc, [score])]
  | (k, d, ss) :: rest =>
    if k = docId then (k, d, ss ++ [score]) :: rest
    else (k, d, ss) :: addHit rest docId doc score

/-- One iteration of the request loop of `hybridSearch`: issue the
request's backend call (if any) and accumulate its hits. -/
def hybridStep (backend : BackendCall → List SearchHit) (isHybrid : Bool)
    (opts : HybridOptions) (st : List BackendCall × ResultAcc)
    (req : HybridRequest) : List BackendCall × ResultAcc :=
  match requestCall isHybrid opts req with
  | none => st
  | some call =>
    (st.1 ++ [call],
     (backend call).foldl
       (fun acc h => addHit acc (docIdOf h) (docOfHit req.data h) h.score)
       st.2)

/-- Process the request list: the backend calls issued, in order, and the
accumulated per-document scores. -/
def processRequests (backend : BackendCall → List SearchHit) (isHybrid : Bool)
    (opts : HybridOptions) (reqs : List HybridRequest) :
    List BackendCall × ResultAcc :=
  reqs.foldl (hybridStep backend isHybrid opts) ([], [])

structure RankedDoc where
  document : VDoc
  score : Rat
deriving DecidableEq

/-- `scores.reduce((sum, _, idx) => sum + 1 / (k + idx + 1), 0)`: the
reducer ignores the score value and uses the index of the score within
the document's own accumulated score list. -/
def rrfOf (k : Rat) (scores : List Rat) : Rat :=
  (List.range scores.length).foldl (fun sm idx => sm + 1 / (k + (idx : Rat) + 1)) 0

/-- `weights[i] || 1 / scores.length`. -/
def weightAt (weights : List Rat) (i : Nat) (n : Nat) : Rat :=
  match weights[i]? with
  | some w => if w = 0 then 1 / (n : Rat) else w
  | none => 1 / (n : Rat)

def weightedOf (weights : List Rat) (scores : List Rat) : Rat :=
  (List.range scores.length).foldl
    (fun sm i => sm + (scores[i]?.getD 0) * weightAt weights i scores.length) 0

/-- Stable descending insertion: insert after every element with score
greater than or equal.  The source's `sort((a, b) => b.score - a.score)`
is a stable descending sort, and this insertion sort produces exactly
that list: descending scores with ties in original order. -/
def insertDesc : List RankedDoc → RankedDoc → List RankedDoc
  | [], x => [x]
  | y :: ys, x =>
    if y.score < x.score then x :: y :: ys else y :: insertDesc ys x

def sortByScoreDesc (l : List RankedDoc) : List RankedDoc :=
  l.foldl insertDesc []

/-- `applyReranking(results, rerank)`. -/
def applyReranking (results : ResultAcc) (rerank : Option RerankSpec) :
    List RankedDoc :=
  let strategy := jsOrStr (rerank.map (·.strategy)) "rrf"
  if strategy = "rrf" then
    let k := jsOrRat (rerank.bind (·.k)) 60
    sortByScoreDesc (results.map fun e => ⟨e.2.1, rrfOf k e.2.2⟩)
  else if strategy = "weighted" then
    let weights := (rerank.bind (·.weights)).getD [1/2, 1/2]
    sortByScoreDesc (results.map fun e => ⟨e.2.1, weightedOf weights e.2.2⟩)
  else
    sortByScoreDesc (results.map fun e =>
      ⟨e.2.1, e.2.2.sum / (e.2.2.length : Rat)⟩)

/-- `hybridSearch(collectionName, searchRequests, options)` with the
backend's per-call results abstracted as a function `backend`. -/
def hybridSearch (backend : BackendCall → List SearchHit) (isHybrid : Bool)
    (opts : HybridOptions) (reqs : List HybridRequest) : List RankedDoc :=
  (applyReranking (processRequests backend isHybrid opts reqs).2 opts.rerank).take
    (jsOrNum opts.limit 10)

/-- The backend calls a `hybridSearch` invocation issues. -/
def hybridSearchCalls (backend : BackendCall → List SearchHit) (isHybrid : Bool)
    (opts : HybridOptions) (reqs : List HybridRequest) : List BackendCall :=
  (processRequests backend isHybrid opts reqs).1

/-! ### QdrantVectorDatabase.insertHybrid -/

/-- A `VectorDocument` passed to insert. -/
structure VectorDocument where
  id : String
  vector : List Rat
  sparseVector : Option SparseVec
  content : String
  relativePath : String
  startLine : Nat
  endLine : Nat
  fileExtension : String
  metadata : List (String × String)
deriving DecidableEq

structure PointPayload where
  id : String
  content : String
  relativePath : String
  startLine : Nat
  endLine : Nat
  fileExtension : String
  metadata : List (String × String)
deriving DecidableEq

/-- The payload constructed for a point (identical in `insert` and in
both branches of `insertHybrid`). -/
def mkPayload (doc : VectorDocument) : PointPayload :=
  { id := doc.id, content := doc.content, relativePath := doc.relativePath,
    startLine := doc.startLine, endLine := doc.endLine,
    fileExtension := doc.fileExtension, metadata := doc.metadata }

/-- A point as upserted by `insertHybrid`: the named `dense` vector,
optionally the named `sparse` vector, and the payload. -/
structure HybridPoint where
  pointId : String
  dense : List Rat
  sparse : Option SparseVec
  payload : PointPayload
deriving DecidableEq

/-- The per-document point construction of `insertHybrid` (`now` is the
`Date.now()` read by the id mapping). -/
def hybridPointOf (now : Nat) (doc : VectorDocument) : HybridPoint :=
  { pointId := stringToUuid (strCodes doc.id) now,
    dense := doc.vector,
    sparse :=
      match doc.sparseVector with
      | some sv => if sv.indices = [] then none else some sv
      | none => none,
    payload := mkPayload doc }

def insertHybridPoints (now : Nat) (docs : List VectorDocument) : List HybridPoint :=
  docs.map (hybridPointOf now)

/-! ### Spec-modelled definitions (for refinement comparison only) -/

/-- Modelled from the spec, for comparison with `bm25Score`:
`score = idf · adjusted_tf · (k1 + 1) / (adjusted_tf + k1 · (1 − b + b · doc_len / max(avg_document_length, 1)))`. -/
def specPerTermScore (mlog : Rat → Rat) (cfg : EncConfig) (avg : Rat) (docLen : Nat)
    (idf : Rat) (tf : Nat) : Rat :=
  let adjustedTf : Rat := if cfg.sublinearTf then 1 + mlog (tf : Rat) else (tf : Rat)
  idf * adjustedTf * (cfg.k1 + 1) /
    (adjustedTf + cfg.k1 * (1 - cfg.b + cfg.b * ((docLen : Rat) / max avg 1)))

/-! ### Well-formedness and reachability of encoder states -/

/-- The vocabulary invariant `buildVocabulary` establishes: indices are
`0, 1, 2, …` in insertion order and terms are unique. -/
def VocabWF (s : EncState) : Prop :=
  s.vocabulary.map Prod.snd = List.range s.vocabulary.length ∧
  (s.vocabulary.map Prod.fst).Nodup

/-- Encoder states reachable from a fresh instance through
`buildVocabulary`, `clear`, `importState` of a previously exported
state, and `embed` (whose uninitialized fallback rebuilds the
vocabulary). -/
inductive Reachable (mlog : Rat → Rat) : EncState → Prop
  | init (cfg : EncConfig) : Reachable mlog (initEncState cfg)
  | build {s : EncState} (docs : List String) :
      Reachable mlog s → Reachable mlog (buildVocabulary mlog s docs)
  | doClear {s : EncState} : Reachable mlog s → Reachable mlog (clear s)
  | doImport {s t : EncState} :
      Reachable mlog s → Reachable mlog t →
      Reachable mlog (importState s (exportState t))
  | doEmbed {s : EncState} (text : String) :
      Reachable mlog s → Reachable mlog (embed mlog s text).1

/-- A hybrid search request carrying a sparse vector with no indices. -/
def isEmptySparseReq (r : HybridRequest) : Prop :=
  ∃ sv, r.data = ReqData.sparse sv ∧ sv.indices = []

/-! ### Concrete scenario objects used by counterexamples and witnesses -/

/-- A constant stand-in for `Math.log` in concrete scenarios (none of the
concrete facts depend on the logarithm's values). -/
def mlogOne : Rat → Rat := fun _ => 1

def encFresh : EncState := initEncState defaultEncConfig

/-- Corpus `["ab", ""]`: one token total over two documents, so
`avgDocumentLength = 1/2`. -/
def encAvgHalf : EncState := buildVocabulary mlogOne encFresh ["ab", ""]

/-- Corpus `["ab cd"]`: `avgDocumentLength = 2`. -/
def encAvgTwo : EncState := buildVocabulary mlogOne encFresh ["ab cd"]

def rrfPayload (i : String) : HitPayload :=
  ⟨some i, some "c", some "p", some 1, some 2, some ".ts", []⟩

/-- Backend for the RRF scenario: the dense channel returns document `d`
at rank 0; the sparse channel returns `e`, `f`, `d`, so `d` is at rank 2. -/
def rrfBackend : BackendCall → List SearchHit := fun c =>
  match c.vec with
  | .namedDense _ => [⟨"pd", rrfPayload "d", 9/10⟩]
  | .namedSparse _ => [⟨"pe", rrfPayload "e", 8/10⟩, ⟨"pf", rrfPayload "f", 7/10⟩,
                       ⟨"pd", rrfPayload "d", 6/10⟩]
  | .unnamed _ => []

def rrfRequests : List HybridRequest :=
  [⟨.dense [1], none, none⟩, ⟨.sparse ⟨[0], [1]⟩, none, none⟩]

def noHybridOptions : HybridOptions := ⟨none, none, none⟩

def emptySparseReq : HybridRequest := ⟨.sparse ⟨[], []⟩, none, none⟩

def docWithSparse : VectorDocument :=
  ⟨"doc1", [1, 2], some ⟨[0, 3], [1/2, 1/4]⟩, "content", "a/b.ts", 1, 2, ".ts", []⟩

def docNoSparse : VectorDocument :=
  ⟨"doc2", [1, 2], none, "content", "a/b.ts", 1, 2, ".ts", []⟩

/-! ### Character-level helpers for the filter-parser theorems -/

/-- Double-quote character. -/
def dqChar : Char := Char.ofNat 34

/-- Characters allowed in the canonical filter values of the parser
theorems: word characters and the dot. -/
def isValueChar (c : Char) : Bool := isWordChar c ∨ c.toNat = 46

/-- A double-quoted value. -/
def quotedVal (v : List Char) : List Char := dqChar :: (v ++ [dqChar])

/-- `"v1", "v2", …` — the bracket contents of a canonical `in` filter. -/
def joinQuoted : List (List Char) → List Char
  | [] => []
  | [v] => quotedVal v
  | v :: rest => quotedVal v ++ ',' :: ' ' :: joinQuoted rest

/-- `field in ["v1", "v2", …]` as a character list. -/
def mkInExpr (field : List Char) (vs : List (List Char)) : List Char :=
  field ++
    (' ' :: 'i' :: 'n' :: ' ' :: Char.ofNat 91 :: (joinQuoted vs ++ [Char.ofNat 93]))

/-- `field OP "value"` as a character list (`OP` is `==` or `!=`). -/
def mkCmpExpr (field : List Char) (op1 : Char) (v : List Char) : List Char :=
  field ++ ' ' :: op1 :: '=' :: ' ' :: quotedVal v


/-! ## Theorems -/

/-- The state after building from the corpus `["ab", ""]`:
one term, `avgDocumentLength = 1/2`. -/
theorem encAvgHalf_eq :
    encAvgHalf = ⟨defaultEncConfig, [("ab", 0)], [("ab", 1)], 2, 1/2, [("ab", 1)], true⟩ := by
  have hc : termDocCounts TokenMode.code ["ab", ""] = [("ab", 1)] := by decide
  have hlen : (["ab", ""].map fun d => (tokenizeIn TokenMode.code d).length) = [1, 0] := by
    decide
  simp only [encAvgHalf, encFresh, initEncState, buildVocabulary, defaultEncConfig]
  rw [if_neg (by decide : ¬ ((["ab", ""] : List String) = [])), hc, hlen]
  norm_num [buildTables, mlogOne, Int.le_floor]

/-- The state after building from the corpus `["ab cd"]`:
`avgDocumentLength = 2` (with one document, `maxDf = 0` excludes every
term, which is irrelevant here). -/
theorem encAvgTwo_eq :
    encAvgTwo = ⟨defaultEncConfig, [], [], 1, 2, [], true⟩ := by
  have hc : termDocCounts TokenMode.code ["ab cd"] = [("ab", 1), ("cd", 1)] := by decide
  have hlen : (["ab cd"].map fun d => (tokenizeIn TokenMode.code d).length) = [2] := by
    decide
  simp only [encAvgTwo, encFresh, initEncState, buildVocabulary, defaultEncConfig]
  rw [if_neg (by decide : ¬ ((["ab cd"] : List String) = [])), hc, hlen]
  norm_num [buildTables, mlogOne, Int.le_floor]

/-- C1: in the fused ranking of `hybridSearch` under RRF, a document
returned at rank 0 by the dense channel and at rank 2 of three by the
sparse channel is fused with score `1/61 + 1/62`, not the `1/61 + 1/63`
the claim requires: `applyReranking` sums `1/(k + idx + 1)` over the
index `idx` of each score in the document's own accumulated score list,
so the rank of the document within each channel's result list is
discarded. -/
theorem c1_rrf_uses_score_position_not_rank :
    (hybridSearch rrfBackend true noHybridOptions rrfRequests).map
        (fun r => (r.document.id, r.score)) =
      [("d", 1/61 + 1/62), ("e", 1/61), ("f", 1/61)] ∧
    (1/61 + 1/62 : Rat) ≠ 1/61 + 1/63 := by
  constructor
  · norm_num [hybridSearch, processRequests, hybridStep, requestCall, rrfRequests, noHybridOptions,
      jsOrNum, optionsFilter, rrfBackend, addHit, docIdOf, docOfHit, jsOrStr, rrfPayload,
      applyReranking, jsOrRat, rrfOf, sortByScoreDesc, insertDesc, List.range,
      List.range.loop, List.foldl]
    exact ⟨fun h => ((by decide : ¬(("d" : String) = "")) h).elim,
           fun h => ((by decide : ¬(("e" : String) = "")) h).elim,
           fun h => ((by decide : ¬(("f" : String) = "")) h).elim⟩
  · norm_num

/-- C2: `stringToUuid` is not a function of the input string alone: the
third block of the generated id embeds the low hex digits of
`Date.now()`, so the same input string maps to different backend point
ids at different times (here times 16 and 17). -/
theorem c2_stringToUuid_depends_on_time :
    stringToUuid (strCodes "a") 16 ≠ stringToUuid (strCodes "a") 17 := by decide

/-- C6: code-mode tokenization of the two literal inputs of the claim:
camelCase and acronym boundaries are split, tokens are lowercased,
`"is"`/`"the"` are removed by the stop list, and no single-character
token is emitted. -/
theorem c6_code_tokenization :
    tokenizeCode "calculateTotalPrice(items)" = ["calculate", "total", "price", "items"] ∧
    tokenizeCode "XMLHttpRequest is the API" = ["xml", "http", "request", "api"] := by
  decide

/-- Unfolding of `embed` on an initialized state. -/
theorem embed_initialized (mlog : Rat → Rat) (s : EncState) (text : String)
    (h : s.isInitialized = true) :
    embed mlog s text =
      (s,
        if (tokenizeIn s.config.tokenMode text).length = 0 then ⟨[], []⟩
        else
          ⟨(emitScores mlog s.config s.avgDocumentLength
              (tokenizeIn s.config.tokenMode text).length s.vocabulary s.idfCache
              (termFreqOf s.vocabulary (tokenizeIn s.config.tokenMode text))).1,
           (emitScores mlog s.config s.avgDocumentLength
              (tokenizeIn s.config.tokenMode text).length s.vocabulary s.idfCache
              (termFreqOf s.vocabulary (tokenizeIn s.config.tokenMode text))).2⟩) := by
  simp only [embed, h, if_true]
  split <;> rfl

/-- C3 counterexample: the initialized encoder built from `["ab", ""]`
has `avg_document_length = 1/2`, strictly between 0 and 1.  On the input
`"ab ab"` the per-term score `embed` emits is `44/59` (the code divides
`doc_len` by `avg` itself when `avg ≠ 0`), while the claim's formula with
`max(avg_document_length, 1)` yields `44/41`. -/
theorem c3_counterexample :
    encAvgHalf.isInitialized = true ∧
    encAvgHalf.avgDocumentLength = 1/2 ∧
    (embed mlogOne encAvgHalf "ab ab").2 = ⟨[0], [44/59]⟩ ∧
    specPerTermScore mlogOne encAvgHalf.config encAvgHalf.avgDocumentLength 2
      ((lookupStr encAvgHalf.idfCache "ab").getD 0) 2 = 44/41 ∧
    ((44 : Rat)/59 ≠ 44/41) := by
  have htok : tokenizeIn TokenMode.code "ab ab" = ["ab", "ab"] := by decide
  have htf : termFreqOf [("ab", 0)] ["ab", "ab"] = [("ab", 2)] := by decide
  have hlv : lookupStr [("ab", 0)] "ab" = some 0 := rfl
  have hli : lookupStr [("ab", (1 : Rat))] "ab" = some 1 := rfl
  rw [encAvgHalf_eq]
  refine ⟨rfl, rfl, ?_, ?_, by norm_num⟩
  · rw [embed_initialized mlogOne _ _ rfl]
    simp only [defaultEncConfig]
    rw [htok]
    rw [if_neg (by decide : ¬ ((["ab", "ab"] : List String).length = 0))]
    rw [htf]
    simp only [emitScores, hlv, hli, Option.getD, bm25Score, mlogOne]
    norm_num
  · simp only [specPerTermScore, defaultEncConfig, hli, Option.getD, mlogOne]
    norm_num

/-- C4 counterexample: rebuilding with an empty document list on an
encoder whose previous corpus gave `avg_document_length = 2` leaves
`avg_document_length = 2`, not the claimed 0 — the empty-corpus early
return never touches that field. -/
theorem c4_counterexample :
    (buildVocabulary mlogOne encAvgTwo []).isInitialized = true ∧
    (buildVocabulary mlogOne encAvgTwo []).vocabulary = [] ∧
    (buildVocabulary mlogOne encAvgTwo []).avgDocumentLength = 2 ∧
    ((2 : Rat) ≠ 0) := by
  rw [encAvgTwo_eq]
  simp only [buildVocabulary, if_pos rfl]
  exact ⟨rfl, rfl, rfl, by norm_num⟩

/-- C8 counterexample: a whitespace-only filter expression matches none
of the three recognized forms and yields no filter, but the early return
for blank input logs no warning, contrary to the claim. -/
theorem c8_counterexample : parseFilterExpression " " = (none, false) := by decide

/-- C5: on an initialized encoder, `exportState` then `clear` then
`importState` of the exported container restores the state exactly
(config included, since the exported container always carries it), so
`embed` is invariant under the round trip. -/
theorem c5_export_clear_import_roundtrip (mlog : Rat → Rat) (s : EncState) (x : String)
    (h : s.isInitialized = true) :
    importState (clear s) (exportState s) = s ∧
    (embed mlog (importState (clear s) (exportState s)) x).2 = (embed mlog s x).2 := by
  have h1 : importState (clear s) (exportState s) = s := by
    cases s with
    | mk cfg v d t a i ini =>
      simp only [EncState.isInitialized] at h
      simp [importState, exportState, clear, h]
  exact ⟨h1, by rw [h1]⟩

/-- C5 witness at a concrete initialized encoder. -/
theorem c5_witness :
    importState (clear encAvgHalf) (exportState encAvgHalf) = encAvgHalf ∧
    (embed mlogOne (importState (clear encAvgHalf) (exportState encAvgHalf)) "ab").2 =
      (embed mlogOne encAvgHalf "ab").2 :=
  c5_export_clear_import_roundtrip mlogOne encAvgHalf "ab" (by rw [encAvgHalf_eq])

/-- C10: a point built by `insertHybrid` always carries the dense named
vector and the payload built by the shared payload constructor; it
carries a sparse named vector exactly when the document has a sparse
vector with nonempty indices, in which case it is that vector. -/
theorem c10_hybrid_point_shape (now : Nat) (doc : VectorDocument) :
    (hybridPointOf now doc).payload = mkPayload doc ∧
    (hybridPointOf now doc).dense = doc.vector ∧
    (hybridPointOf now doc).pointId = stringToUuid (strCodes doc.id) now ∧
    ((hybridPointOf now doc).sparse = none ↔
      doc.sparseVector = none ∨ ∃ sv, doc.sparseVector = some sv ∧ sv.indices = []) ∧
    (∀ sv, doc.sparseVector = some sv → sv.indices ≠ [] →
      (hybridPointOf now doc).sparse = some sv) := by
  refine ⟨rfl, rfl, rfl, ?_, ?_⟩
  · cases hsv : doc.sparseVector with
    | none => simp [hybridPointOf, hsv]
    | some sv =>
      by_cases hi : sv.indices = [] <;> simp [hybridPointOf, hsv, hi]
  · intro sv hsv hne
    simp [hybridPointOf, hsv, hne]

/-- C10 witness at two concrete documents (with and without a sparse
vector). -/
theorem c10_witness :
    (hybridPointOf 16 docWithSparse).sparse = some ⟨[0, 3], [1/2, 1/4]⟩ ∧
    (hybridPointOf 16 docWithSparse).payload = mkPayload docWithSparse ∧
    (hybridPointOf 16 docNoSparse).sparse = none :=
  ⟨(c10_hybrid_point_shape 16 docWithSparse).2.2.2.2 ⟨[0, 3], [1/2, 1/4]⟩ rfl
      (by decide),
   (c10_hybrid_point_shape 16 docWithSparse).1,
   ((c10_hybrid_point_shape 16 docNoSparse).2.2.2.1).mpr (Or.inl rfl)⟩

/-- `applyReranking` of an empty accumulation is empty under every
strategy. -/
theorem applyReranking_nil (rr : Option RerankSpec) : applyReranking [] rr = [] := by
  simp only [applyReranking]
  split_ifs <;> rfl

/-- A request whose data is a sparse vector with empty indices issues no
backend call. -/
theorem requestCall_empty_sparse (isHybrid : Bool) (opts : HybridOptions)
    (r : HybridRequest) (h : isEmptySparseReq r) :
    requestCall isHybrid opts r = none := by
  obtain ⟨sv, hd, hi⟩ := h
  simp [requestCall, hd, hi]

/-- The request loop leaves its state unchanged on an empty sparse
request. -/
theorem hybridStep_empty_sparse (backend : BackendCall → List SearchHit)
    (isHybrid : Bool) (opts : HybridOptions) (st : List BackendCall × ResultAcc)
    (r : HybridRequest) (h : isEmptySparseReq r) :
    hybridStep backend isHybrid opts st r = st := by
  simp [hybridStep, requestCall_empty_sparse isHybrid opts r h]

/-- C9: a request whose data is a sparse vector with empty indices is
skipped — deleting it from the request list changes neither the backend
calls issued nor the returned ranking — and a call consisting only of
such requests issues no backend call and returns the empty list. -/
theorem c9_empty_sparse_requests_skipped :
    (∀ (backend : BackendCall → List SearchHit) (isHybrid : Bool)
      (opts : HybridOptions) (rs1 : List HybridRequest) (r : HybridRequest)
      (rs2 : List HybridRequest), isEmptySparseReq r →
      hybridSearch backend isHybrid opts (rs1 ++ r :: rs2) =
        hybridSearch backend isHybrid opts (rs1 ++ rs2) ∧
      hybridSearchCalls backend isHybrid opts (rs1 ++ r :: rs2) =
        hybridSearchCalls backend isHybrid opts (rs1 ++ rs2)) ∧
    (∀ (backend : BackendCall → List SearchHit) (isHybrid : Bool)
      (opts : HybridOptions) (rs : List HybridRequest),
      (∀ x ∈ rs, isEmptySparseReq x) →
      hybridSearch backend isHybrid opts rs = [] ∧
      hybridSearchCalls backend isHybrid opts rs = []) := by
  have hproc : ∀ (backend : BackendCall → List SearchHit) (isHybrid : Bool)
      (opts : HybridOptions) rs1 r rs2, isEmptySparseReq r →
      processRequests backend isHybrid opts (rs1 ++ r :: rs2) =
        processRequests backend isHybrid opts (rs1 ++ rs2) := by
    intro backend isHybrid opts rs1 r rs2 hr
    simp only [processRequests, List.foldl_append, List.foldl_cons]
    rw [hybridStep_empty_sparse backend isHybrid opts _ r hr]
  have hall : ∀ (backend : BackendCall → List SearchHit) (isHybrid : Bool)
      (opts : HybridOptions) rs, (∀ x ∈ rs, isEmptySparseReq x) →
      processRequests backend isHybrid opts rs = ([], []) := by
    intro backend isHybrid opts rs hrs
    simp only [processRequests]
    induction rs with
    | nil => rfl
    | cons r rs ih =>
      rw [List.foldl_cons,
        hybridStep_empty_sparse backend isHybrid opts _ r (hrs r (by simp))]
      exact ih (fun x hx => hrs x (by simp [hx]))
  constructor
  · intro backend isHybrid opts rs1 r rs2 hr
    exact ⟨by unfold hybridSearch; rw [hproc backend isHybrid opts rs1 r rs2 hr],
           by unfold hybridSearchCalls; rw [hproc backend isHybrid opts rs1 r rs2 hr]⟩
  · intro backend isHybrid opts rs hrs
    constructor
    · unfold hybridSearch
      rw [hall backend isHybrid opts rs hrs, applyReranking_nil]
      exact List.take_nil
    · unfold hybridSearchCalls
      rw [hall backend isHybrid opts rs hrs]

/-- C9 witness: a concrete all-empty-sparse call returns nothing and a
concrete mixed list drops its empty sparse request. -/
theorem c9_witness :
    (hybridSearch rrfBackend true noHybridOptions [emptySparseReq] = [] ∧
     hybridSearchCalls rrfBackend true noHybridOptions [emptySparseReq] = []) ∧
    hybridSearch rrfBackend true noHybridOptions
        (rrfRequests ++ emptySparseReq :: []) =
      hybridSearch rrfBackend true noHybridOptions (rrfRequests ++ []) :=
  ⟨c9_empty_sparse_requests_skipped.2 rrfBackend true noHybridOptions [emptySparseReq]
      (by intro x hx; simp at hx; exact hx ▸ ⟨⟨[], []⟩, rfl, rfl⟩),
   (c9_empty_sparse_requests_skipped.1 rrfBackend true noHybridOptions rrfRequests
      emptySparseReq [] ⟨⟨[], []⟩, rfl, rfl⟩).1⟩

/-- C4 amended: `buildVocabulary` with an empty document list clears the
three tables, sets `totalDocuments = 0` and initializes, but keeps the
previous `avgDocumentLength` (0 only on a fresh encoder); apart from the
retained parameter block, `buildVocabulary` on a nonempty list and
`importState` compute the new state from their arguments alone — no
other field of the previous state survives. -/
theorem c4_state_replacement :
    (∀ (mlog : Rat → Rat) (s : EncState),
      (buildVocabulary mlog s []).vocabulary = [] ∧
      (buildVocabulary mlog s []).documentFrequency = [] ∧
      (buildVocabulary mlog s []).idfCache = [] ∧
      (buildVocabulary mlog s []).totalDocuments = 0 ∧
      (buildVocabulary mlog s []).isInitialized = true ∧
      (buildVocabulary mlog s []).avgDocumentLength = s.avgDocumentLength ∧
      (buildVocabulary mlog s []).config = s.config) ∧
    (∀ (mlog : Rat → Rat) (s t : EncState) (docs : List String), docs ≠ [] →
      s.config = t.config →
      buildVocabulary mlog s docs = buildVocabulary mlog t docs) ∧
    (∀ (s t : EncState) (c : EncStateContainer), s.config = t.config →
      importState s c = importState t c) := by
  refine ⟨?_, ?_, ?_⟩
  · intro mlog s
    simp [buildVocabulary]
  · intro mlog s t docs hne hcfg
    cases s with
    | mk scfg sv sd st sa si sini =>
      cases t with
      | mk tcfg tv td tt ta ti tini =>
        simp only [EncState.config] at hcfg
        subst hcfg
        simp [buildVocabulary, hne]
  · intro s t c hcfg
    simp [importState, hcfg]

/-- C4 witness: concrete instances of the three parts, at encoders with
different previous states but equal configs. -/
theorem c4_witness :
    (buildVocabulary mlogOne encAvgTwo []).avgDocumentLength =
      encAvgTwo.avgDocumentLength ∧
    buildVocabulary mlogOne encAvgTwo ["x y"] = buildVocabulary mlogOne encFresh ["x y"] ∧
    importState encAvgTwo (exportState encFresh) =
      importState encFresh (exportState encFresh) :=
  ⟨(c4_state_replacement.1 mlogOne encAvgTwo).2.2.2.2.2.1,
   c4_state_replacement.2.1 mlogOne encAvgTwo encFresh ["x y"]
     (by decide) (by rw [encAvgTwo_eq]; rfl),
   c4_state_replacement.2.2 encAvgTwo encFresh (exportState encFresh)
     (by rw [encAvgTwo_eq]; rfl)⟩

/-- Every `(index, value)` pair emitted by the BM25 scoring loop comes
from some accumulated `(term, tf)` entry, with the index looked up in the
vocabulary, the value given by the source's score formula, and the value
positive (the emission guard). -/
theorem emitScores_mem (mlog : Rat → Rat) (cfg : EncConfig) (avg : Rat) (docLen : Nat)
    (vocab : List (String × Nat)) (idfC : List (String × Rat)) :
    ∀ (tfl : List (String × Nat)) (p : Nat × Rat),
      p ∈ ((emitScores mlog cfg avg docLen vocab idfC tfl).1).zip
        ((emitScores mlog cfg avg docLen vocab idfC tfl).2) →
      ∃ term tf, (term, tf) ∈ tfl ∧
        p.1 = (lookupStr vocab term).getD 0 ∧
        p.2 = bm25Score mlog cfg avg docLen ((lookupStr idfC term).getD 0) tf ∧
        0 < p.2 := by
  intro tfl
  induction tfl with
  | nil =>
    intro p hp
    simp [emitScores] at hp
  | cons e rest ih =>
    intro p hp
    obtain ⟨term, tf⟩ := e
    simp only [emitScores] at hp
    by_cases hpos : 0 < bm25Score mlog cfg avg docLen ((lookupStr idfC term).getD 0) tf
    · rw [if_pos hpos] at hp
      rw [List.zip_cons_cons, List.mem_cons] at hp
      rcases hp with hp | hp
      · exact ⟨term, tf, List.mem_cons_self _ _, by rw [hp], by rw [hp], hp ▸ hpos⟩
      · obtain ⟨t2, tf2, hm, h1, h2, h3⟩ := ih p hp
        exact ⟨t2, tf2, List.mem_cons_of_mem _ hm, h1, h2, h3⟩
    · rw [if_neg hpos] at hp
      obtain ⟨t2, tf2, hm, h1, h2, h3⟩ := ih p hp
      exact ⟨t2, tf2, List.mem_cons_of_mem _ hm, h1, h2, h3⟩

/-- C3 amended: on an initialized encoder, every per-term score emitted
by `embed` equals
`idf · adjusted_tf · (k1 + 1) / (adjusted_tf + k1 · (1 − b + b · doc_len / A))`
where `A` is `avg_document_length` itself when it is nonzero and 1 when
it is zero (the source's `avg || 1`), not `max(avg_document_length, 1)`;
the two agree except when `0 < avg_document_length < 1`. -/
theorem c3_per_term_score_formula (mlog : Rat → Rat) (s : EncState) (text : String)
    (hinit : s.isInitialized = true)
    (hne : tokenizeIn s.config.tokenMode text ≠ []) :
    ∀ p ∈ ((embed mlog s text).2.indices).zip ((embed mlog s text).2.values),
      ∃ term tf,
        (term, tf) ∈ termFreqOf s.vocabulary (tokenizeIn s.config.tokenMode text) ∧
        p.1 = (lookupStr s.vocabulary term).getD 0 ∧
        p.2 =
          ((lookupStr s.idfCache term).getD 0) *
            ((if s.config.sublinearTf then 1 + mlog (tf : Rat) else (tf : Rat)) *
                (s.config.k1 + 1) /
             ((if s.config.sublinearTf then 1 + mlog (tf : Rat) else (tf : Rat)) +
              s.config.k1 * (1 - s.config.b + s.config.b *
                (((tokenizeIn s.config.tokenMode text).length : Rat) /
                 (if s.avgDocumentLength = 0 then 1 else s.avgDocumentLength))))) ∧
        0 < p.2 := by
  intro p hp
  rw [embed_initialized mlog s text hinit] at hp
  rw [if_neg (by simpa using hne)] at hp
  obtain ⟨term, tf, hm, h1, h2, h3⟩ :=
    emitScores_mem mlog s.config s.avgDocumentLength
      (tokenizeIn s.config.tokenMode text).length s.vocabulary s.idfCache _ p hp
  refine ⟨term, tf, hm, h1, ?_, h3⟩
  rw [h2]
  simp only [bm25Score]

/-- C3 witness: the amended formula instantiated on the encoder with
`avg_document_length = 1/2` and the emitted pair `(0, 44/59)`. -/
theorem c3_witness :
    ∃ term tf,
      (term, tf) ∈ termFreqOf encAvgHalf.vocabulary
        (tokenizeIn encAvgHalf.config.tokenMode "ab ab") ∧
      (0 : Nat) = (lookupStr encAvgHalf.vocabulary term).getD 0 ∧
      (44/59 : Rat) =
        ((lookupStr encAvgHalf.idfCache term).getD 0) *
          ((if encAvgHalf.config.sublinearTf then 1 + mlogOne (tf : Rat) else (tf : Rat)) *
              (encAvgHalf.config.k1 + 1) /
           ((if encAvgHalf.config.sublinearTf then 1 + mlogOne (tf : Rat) else (tf : Rat)) +
            encAvgHalf.config.k1 * (1 - encAvgHalf.config.b + encAvgHalf.config.b *
              (((tokenizeIn encAvgHalf.config.tokenMode "ab ab").length : Rat) /
               (if encAvgHalf.avgDocumentLength = 0 then 1
                else encAvgHalf.avgDocumentLength))))) ∧
      (0 : Rat) < 44/59 := by
  have hvec : (embed mlogOne encAvgHalf "ab ab").2 = ⟨[0], [44/59]⟩ := by
    have htok : tokenizeIn TokenMode.code "ab ab" = ["ab", "ab"] := by decide
    have htf : termFreqOf [("ab", 0)] ["ab", "ab"] = [("ab", 2)] := by decide
    have hlv : lookupStr [("ab", 0)] "ab" = some 0 := rfl
    have hli : lookupStr [("ab", (1 : Rat))] "ab" = some 1 := rfl
    rw [encAvgHalf_eq]
    rw [embed_initialized mlogOne _ _ rfl]
    simp only [defaultEncConfig]
    rw [htok]
    rw [if_neg (by decide : ¬ ((["ab", "ab"] : List String).length = 0))]
    rw [htf]
    simp only [emitScores, hlv, hli, Option.getD, bm25Score, mlogOne]
    norm_num
  have hmem : ((0 : Nat), (44/59 : Rat)) ∈
      ((embed mlogOne encAvgHalf "ab ab").2.indices).zip
        ((embed mlogOne encAvgHalf "ab ab").2.values) := by
    rw [hvec]
    simp
  exact c3_per_term_score_formula mlogOne encAvgHalf "ab ab" (by rw [encAvgHalf_eq])
    (by rw [encAvgHalf_eq]; decide) (0, 44/59) hmem

/-- A successful association-list lookup is a membership. -/
theorem lookupStr_mem {α : Type} (l : List (String × α)) (k : String) (v : α)
    (h : lookupStr l k = some v) : (k, v) ∈ l := by
  induction l with
  | nil => simp [lookupStr, List.lookup] at h
  | cons e rest ih =>
    obtain ⟨a, b⟩ := e
    by_cases hk : k = a
    · subst hk
      simp only [lookupStr, List.lookup, beq_self_eq_true] at h
      simp only [Option.some.injEq] at h
      subst h
      exact List.mem_cons_self _ _
    · rw [show lookupStr ((a, b) :: rest) k = lookupStr rest k from by
        simp only [lookupStr, List.lookup, beq_eq_false_iff_ne.mpr hk]] at h
      exact List.mem_cons_of_mem _ (ih h)

theorem addTermDoc_keys (acc : List (String × Nat)) (t : String) :
    (addTermDoc acc t).map Prod.fst =
      if t ∈ acc.map Prod.fst then acc.map Prod.fst else acc.map Prod.fst ++ [t] := by
  induction acc with
  | nil => simp [addTermDoc]
  | cons e rest ih =>
    obtain ⟨u, n⟩ := e
    by_cases hu : u = t
    · subst hu
      simp [addTermDoc]
    · simp only [addTermDoc, if_neg hu, List.map_cons, ih]
      by_cases hm : t ∈ rest.map Prod.fst
      · rw [if_pos hm, if_pos (by simp [hm])]
      · rw [if_neg hm, if_neg (by simp [hm, Ne.symm hu])]
        simp

theorem addTermDoc_keys_nodup (acc : List (String × Nat)) (t : String)
    (h : (acc.map Prod.fst).Nodup) : ((addTermDoc acc t).map Prod.fst).Nodup := by
  rw [addTermDoc_keys]
  by_cases hm : t ∈ acc.map Prod.fst
  · rw [if_pos hm]; exact h
  · rw [if_neg hm]
    simp [List.nodup_append, h, hm]

theorem addTermDoc_keys_subset (acc : List (String × Nat)) (t : String) :
    ∀ k ∈ (addTermDoc acc t).map Prod.fst, k ∈ acc.map Prod.fst ∨ k = t := by
  intro k hk
  rw [addTermDoc_keys] at hk
  by_cases hm : t ∈ acc.map Prod.fst
  · rw [if_pos hm] at hk; exact Or.inl hk
  · rw [if_neg hm] at hk
    rcases List.mem_append.mp hk with h | h
    · exact Or.inl h
    · exact Or.inr (by simpa using h)

/-- The term-frequency accumulation keeps keys unique and in-vocabulary. -/
theorem termFreqOf_keys (vocab : List (String × Nat)) (tokens : List String) :
    ((termFreqOf vocab tokens).map Prod.fst).Nodup ∧
    ∀ k ∈ (termFreqOf vocab tokens).map Prod.fst, (lookupStr vocab k).isSome := by
  suffices h : ∀ (acc : List (String × Nat)),
      (acc.map Prod.fst).Nodup → (∀ k ∈ acc.map Prod.fst, (lookupStr vocab k).isSome) →
      ((tokens.foldl (fun acc tok =>
          if (lookupStr vocab tok).isSome then addTermDoc acc tok else acc) acc).map
        Prod.fst).Nodup ∧
      ∀ k ∈ (tokens.foldl (fun acc tok =>
          if (lookupStr vocab tok).isSome then addTermDoc acc tok else acc) acc).map
        Prod.fst, (lookupStr vocab k).isSome by
    exact h [] (by simp) (by simp)
  induction tokens with
  | nil => intro acc h1 h2; exact ⟨h1, h2⟩
  | cons tok rest ih =>
    intro acc h1 h2
    rw [List.foldl_cons]
    by_cases hv : (lookupStr vocab tok).isSome
    · rw [if_pos hv]
      refine ih (addTermDoc acc tok) (addTermDoc_keys_nodup acc tok h1) ?_
      intro k hk
      rcases addTermDoc_keys_subset acc tok k hk with h | h
      · exact h2 k h
      · exact h ▸ hv
    · rw [if_neg hv]
      exact ih acc h1 h2

/-- The vocabulary built by `buildTables` carries consecutive indices
starting at `nextIdx`. -/
theorem buildTables_snd (mlog : Rat → Rat) (minDf : Rat) (maxDf : Int) (total : Nat) :
    ∀ (l : List (String × Nat)) (idx : Nat),
      ((buildTables mlog minDf maxDf total idx l).1).map Prod.snd =
        List.range' idx ((buildTables mlog minDf maxDf total idx l).1).length := by
  intro l
  induction l with
  | nil => intro idx; simp [buildTables]
  | cons e rest ih =>
    intro idx
    obtain ⟨term, df⟩ := e
    by_cases hc : minDf ≤ (df : Rat) ∧ (df : Int) ≤ maxDf
    · simp only [buildTables, if_pos hc, List.map_cons, List.length_cons, ih (idx + 1)]
      rw [List.range'_succ]
    · simp only [buildTables, if_neg hc]
      exact ih idx

/-- The vocabulary keys of `buildTables` form a sublist of the input
keys. -/
theorem buildTables_fst_sublist (mlog : Rat → Rat) (minDf : Rat) (maxDf : Int)
    (total : Nat) :
    ∀ (l : List (String × Nat)) (idx : Nat),
      List.Sublist (((buildTables mlog minDf maxDf total idx l).1).map Prod.fst)
        (l.map Prod.fst) := by
  intro l
  induction l with
  | nil => intro idx; simp [buildTables]
  | cons e rest ih =>
    intro idx
    obtain ⟨term, df⟩ := e
    by_cases hc : minDf ≤ (df : Rat) ∧ (df : Int) ≤ maxDf
    · simp only [buildTables, if_pos hc, List.map_cons]
      exact (ih (idx + 1)).cons₂ term
    · simp only [buildTables, if_neg hc, List.map_cons]
      exact (ih idx).cons term

/-- `termDocCounts` has unique keys. -/
theorem termDocCounts_keys_nodup (mode : TokenMode) (docs : List String) :
    ((termDocCounts mode docs).map Prod.fst).Nodup := by
  suffices h : ∀ (acc : List (String × Nat)), (acc.map Prod.fst).Nodup →
      ((docs.foldl (fun acc doc =>
          (insertionDedup (tokenizeIn mode doc)).foldl addTermDoc acc) acc).map
        Prod.fst).Nodup by
    exact h [] (by simp)
  have hinner : ∀ (terms : List String) (acc : List (String × Nat)),
      (acc.map Prod.fst).Nodup → ((terms.foldl addTermDoc acc).map Prod.fst).Nodup := by
    intro terms
    induction terms with
    | nil => intro acc h; exact h
    | cons t rest ih =>
      intro acc h
      rw [List.foldl_cons]
      exact ih (addTermDoc acc t) (addTermDoc_keys_nodup acc t h)
  induction docs with
  | nil => intro acc h; exact h
  | cons d rest ih =>
    intro acc h
    rw [List.foldl_cons]
    exact ih _ (hinner _ acc h)

/-- `buildVocabulary` always establishes the vocabulary invariant. -/
theorem vocabWF_buildVocabulary (mlog : Rat → Rat) (s : EncState) (docs : List String) :
    VocabWF (buildVocabulary mlog s docs) := by
  by_cases hd : docs = []
  · subst hd
    simp [buildVocabulary, VocabWF]
  · constructor
    · simp only [buildVocabulary, if_neg hd]
      rw [buildTables_snd, List.range_eq_range']
    · simp only [buildVocabulary, if_neg hd]
      exact (buildTables_fst_sublist mlog s.config.minDf _ _ _ 0).nodup
        (termDocCounts_keys_nodup s.config.tokenMode docs)

theorem vocabWF_initEncState (cfg : EncConfig) : VocabWF (initEncState cfg) := by
  simp [initEncState, VocabWF]

theorem vocabWF_clear (s : EncState) : VocabWF (clear s) := by
  simp [clear, VocabWF]

theorem vocabWF_import (s t : EncState) (h : VocabWF t) :
    VocabWF (importState s (exportState t)) := by
  obtain ⟨h1, h2⟩ := h
  exact ⟨h1, h2⟩

/-- The state returned by `embed` is either the input state or the
result of the fallback vocabulary build. -/
theorem embed_fst (mlog : Rat → Rat) (s : EncState) (text : String) :
    (embed mlog s text).1 =
      if s.isInitialized then s else buildVocabulary mlog s [text] := by
  simp only [embed]
  split <;> (split <;> rfl)

/-- Every reachable encoder state satisfies the vocabulary invariant. -/
theorem reachable_vocabWF (mlog : Rat → Rat) (s : EncState)
    (h : Reachable mlog s) : VocabWF s := by
  induction h with
  | init cfg => exact vocabWF_initEncState cfg
  | build docs _ _ => exact vocabWF_buildVocabulary mlog _ docs
  | doClear _ _ => exact vocabWF_clear _
  | doImport _ _ _ iht => exact vocabWF_import _ _ iht
  | @doEmbed u text hs ihs =>
    rw [embed_fst]
    by_cases hi : u.isInitialized = true
    · rwa [if_pos hi]
    · rw [if_neg hi]
      exact vocabWF_buildVocabulary mlog _ [text]

/-- Under the vocabulary invariant, a successful lookup yields an index
below the vocabulary size. -/
theorem vocabWF_lookup_lt (s : EncState) (hwf : VocabWF s) (t : String) (v : Nat)
    (h : lookupStr s.vocabulary t = some v) : v < s.vocabulary.length := by
  have hm : (t, v) ∈ s.vocabulary := lookupStr_mem _ _ _ h
  have hv : v ∈ s.vocabulary.map Prod.snd := List.mem_map_of_mem Prod.snd hm
  rw [hwf.1] at hv
  exact List.mem_range.mp hv

/-- Under the vocabulary invariant, distinct terms have distinct
indices. -/
theorem vocabWF_lookup_inj (s : EncState) (hwf : VocabWF s) (t1 t2 : String)
    (v1 v2 : Nat) (h1 : lookupStr s.vocabulary t1 = some v1)
    (h2 : lookupStr s.vocabulary t2 = some v2) (hne : t1 ≠ t2) : v1 ≠ v2 := by
  intro hv
  subst hv
  have hm1 : (t1, v1) ∈ s.vocabulary := lookupStr_mem _ _ _ h1
  have hm2 : (t2, v1) ∈ s.vocabulary := lookupStr_mem _ _ _ h2
  have hnd : (s.vocabulary.map Prod.snd).Nodup := by
    rw [hwf.1]; exact List.nodup_range _
  have := List.inj_on_of_nodup_map hnd hm1 hm2 rfl
  exact hne (congrArg Prod.fst this)

/-- The emitted index list pairs each index with an in-vocabulary term of
the accumulated term list. -/
theorem emitScores_idx (mlog : Rat → Rat) (cfg : EncConfig) (avg : Rat) (docLen : Nat)
    (vocab : List (String × Nat)) (idfC : List (String × Rat)) :
    ∀ (tfl : List (String × Nat)),
      (∀ k ∈ tfl.map Prod.fst, (lookupStr vocab k).isSome) →
      ∀ i ∈ (emitScores mlog cfg avg docLen vocab idfC tfl).1,
        ∃ term ∈ tfl.map Prod.fst, lookupStr vocab term = some i := by
  intro tfl
  induction tfl with
  | nil => intro _ i hi; simp [emitScores] at hi
  | cons e rest ih =>
    intro hall i hi
    obtain ⟨term, tf⟩ := e
    simp only [emitScores] at hi
    have hrest : ∀ k ∈ rest.map Prod.fst, (lookupStr vocab k).isSome := by
      intro k hk; exact hall k (by simp [hk])
    by_cases hpos : 0 < bm25Score mlog cfg avg docLen ((lookupStr idfC term).getD 0) tf
    · rw [if_pos hpos] at hi
      rcases List.mem_cons.mp hi with hi | hi
      · have hsome : (lookupStr vocab term).isSome := hall term (by simp)
        obtain ⟨v, hv⟩ := Option.isSome_iff_exists.mp hsome
        refine ⟨term, by simp, ?_⟩
        rw [hv, hi, hv, Option.getD_some]
      · obtain ⟨t2, hm, hl⟩ := ih hrest i hi
        exact ⟨t2, by simp [hm], hl⟩
    · rw [if_neg hpos] at hi
      obtain ⟨t2, hm, hl⟩ := ih hrest i hi
      exact ⟨t2, by simp [hm], hl⟩

theorem emitScores_length (mlog : Rat → Rat) (cfg : EncConfig) (avg : Rat)
    (docLen : Nat) (vocab : List (String × Nat)) (idfC : List (String × Rat)) :
    ∀ (tfl : List (String × Nat)),
      (emitScores mlog cfg avg docLen vocab idfC tfl).1.length =
        (emitScores mlog cfg avg docLen vocab idfC tfl).2.length := by
  intro tfl
  induction tfl with
  | nil => rfl
  | cons e rest ih =>
    obtain ⟨term, tf⟩ := e
    simp only [emitScores]
    split
    · simp [ih]
    · exact ih

theorem emitScores_pos (mlog : Rat → Rat) (cfg : EncConfig) (avg : Rat)
    (docLen : Nat) (vocab : List (String × Nat)) (idfC : List (String × Rat)) :
    ∀ (tfl : List (String × Nat)) (v : Rat),
      v ∈ (emitScores mlog cfg avg docLen vocab idfC tfl).2 → 0 < v := by
  intro tfl
  induction tfl with
  | nil => intro v hv; simp [emitScores] at hv
  | cons e rest ih =>
    intro v hv
    obtain ⟨term, tf⟩ := e
    simp only [emitScores] at hv
    by_cases hpos : 0 < bm25Score mlog cfg avg docLen ((lookupStr idfC term).getD 0) tf
    · rw [if_pos hpos] at hv
      rcases List.mem_cons.mp hv with hv | hv
      · exact hv ▸ hpos
      · exact ih v hv
    · rw [if_neg hpos] at hv
      exact ih v hv

theorem emitScores_nodup (s : EncState) (hwf : VocabWF s) (mlog : Rat → Rat)
    (cfg : EncConfig) (avg : Rat) (docLen : Nat) (idfC : List (String × Rat)) :
    ∀ (tfl : List (String × Nat)),
      ((tfl.map Prod.fst).Nodup) →
      (∀ k ∈ tfl.map Prod.fst, (lookupStr s.vocabulary k).isSome) →
      (emitScores mlog cfg avg docLen s.vocabulary idfC tfl).1.Nodup := by
  intro tfl
  induction tfl with
  | nil => intro _ _; simp [emitScores]
  | cons e rest ih =>
    intro hnd hall
    obtain ⟨term, tf⟩ := e
    simp only [List.map_cons, List.nodup_cons] at hnd
    have hrest : ∀ k ∈ rest.map Prod.fst, (lookupStr s.vocabulary k).isSome := by
      intro k hk; exact hall k (by simp [hk])
    simp only [emitScores]
    by_cases hpos : 0 < bm25Score mlog cfg avg docLen ((lookupStr idfC term).getD 0) tf
    · rw [if_pos hpos]
      refine List.nodup_cons.mpr ⟨?_, ih hnd.2 hrest⟩
      intro hmem
      obtain ⟨t2, hm2, hl2⟩ :=
        emitScores_idx mlog cfg avg docLen s.vocabulary idfC rest hrest _ hmem
      have hsome : (lookupStr s.vocabulary term).isSome := hall term (by simp)
      obtain ⟨v, hv⟩ := Option.isSome_iff_exists.mp hsome
      rw [hv, Option.getD_some] at hl2
      exact vocabWF_lookup_inj s hwf term t2 v v hv hl2
        (fun he => hnd.1 (he ▸ hm2)) rfl
    · rw [if_neg hpos]
      exact ih hnd.2 hrest

theorem buildVocabulary_initialized (mlog : Rat → Rat) (s : EncState)
    (docs : List String) : (buildVocabulary mlog s docs).isInitialized = true := by
  simp only [buildVocabulary]
  split <;> rfl

/-- The embed-output invariants, for an initialized state satisfying the
vocabulary invariant. -/
theorem c7_main (mlog : Rat → Rat) (s : EncState) (hwf : VocabWF s)
    (hinit : s.isInitialized = true) (text : String) :
    ((embed mlog s text).2.indices).length = ((embed mlog s text).2.values).length ∧
    (∀ v ∈ (embed mlog s text).2.values, 0 < v) ∧
    (∀ i ∈ (embed mlog s text).2.indices,
      i < getVocabularySize (embed mlog s text).1) ∧
    ((embed mlog s text).2.indices).Nodup := by
  rw [embed_initialized mlog s text hinit]
  by_cases hlen : (tokenizeIn s.config.tokenMode text).length = 0
  · rw [if_pos hlen]
    exact ⟨rfl, by simp, by simp, by simp⟩
  · rw [if_neg hlen]
    obtain ⟨hnd, hall⟩ := termFreqOf_keys s.vocabulary (tokenizeIn s.config.tokenMode text)
    refine ⟨emitScores_length _ _ _ _ _ _ _, emitScores_pos _ _ _ _ _ _ _, ?_, ?_⟩
    · intro i hi
      obtain ⟨term, _, hl⟩ :=
        emitScores_idx mlog s.config s.avgDocumentLength _ s.vocabulary s.idfCache _
          hall i hi
      exact vocabWF_lookup_lt s hwf term i hl
    · exact emitScores_nodup s hwf mlog s.config s.avgDocumentLength _ s.idfCache _
        hnd hall

/-- C7: for every reachable encoder state and every input, the sparse
vector returned by `embed` has equally long index and value lists,
strictly positive values, indices inside `[0, vocab_size)` of the
embedding state, and no duplicate index. -/
theorem c7_embed_invariants (mlog : Rat → Rat) (s : EncState) (hs : Reachable mlog s)
    (text : String) :
    ((embed mlog s text).2.indices).length = ((embed mlog s text).2.values).length ∧
    (∀ v ∈ (embed mlog s text).2.values, 0 < v) ∧
    (∀ i ∈ (embed mlog s text).2.indices,
      i < getVocabularySize (embed mlog s text).1) ∧
    ((embed mlog s text).2.indices).Nodup := by
  by_cases hinit : s.isInitialized = true
  · exact c7_main mlog s (reachable_vocabWF mlog s hs) hinit text
  · have h1 : embed mlog s text = embed mlog (buildVocabulary mlog s [text]) text := by
      simp only [embed]
      rw [if_neg hinit, if_pos (buildVocabulary_initialized mlog s [text])]
    rw [h1]
    exact c7_main mlog _ (vocabWF_buildVocabulary mlog s [text])
      (buildVocabulary_initialized mlog s [text]) text

theorem c7_witness :
    ((embed mlogOne encAvgHalf "ab ab").2.indices).length =
      ((embed mlogOne encAvgHalf "ab ab").2.values).length ∧
    (∀ v ∈ (embed mlogOne encAvgHalf "ab ab").2.values, 0 < v) ∧
    (∀ i ∈ (embed mlogOne encAvgHalf "ab ab").2.indices,
      i < getVocabularySize (embed mlogOne encAvgHalf "ab ab").1) ∧
    ((embed mlogOne encAvgHalf "ab ab").2.indices).Nodup :=
  c7_embed_invariants mlogOne encAvgHalf
    (Reachable.build ["ab", ""] (Reachable.init defaultEncConfig)) "ab ab"

theorem takeWhile_append_all (p : Char → Bool) (xs ys : List Char)
    (h : ∀ a ∈ xs, p a = true) :
    (xs ++ ys).takeWhile p = xs ++ ys.takeWhile p := by
  induction xs with
  | nil => simp
  | cons a rest ih =>
    simp only [List.cons_append, List.takeWhile_cons, h a (List.mem_cons_self _ _),
      if_true]
    rw [ih (fun b hb => h b (List.mem_cons_of_mem _ hb))]

theorem dropWhile_append_all (p : Char → Bool) (xs ys : List Char)
    (h : ∀ a ∈ xs, p a = true) :
    (xs ++ ys).dropWhile p = ys.dropWhile p := by
  induction xs with
  | nil => simp
  | cons a rest ih =>
    simp only [List.cons_append, List.dropWhile_cons, h a (List.mem_cons_self _ _),
      if_true]
    exact ih (fun b hb => h b (List.mem_cons_of_mem _ hb))

theorem takeWhile_cons_neg (p : Char → Bool) (y : Char) (ys : List Char)
    (h : p y = false) : (y :: ys).takeWhile p = [] := by
  simp [List.takeWhile_cons, h]

theorem dropWhile_cons_neg (p : Char → Bool) (y : Char) (ys : List Char)
    (h : p y = false) : (y :: ys).dropWhile p = y :: ys := by
  simp [List.dropWhile_cons, h]

/-- Properties of word characters used when computing the matchers. -/
theorem wordChar_props (c : Char) (h : isWordChar c = true) :
    isSpaceChar c = false ∧ c.toNat ≠ 91 ∧ c.toNat ≠ 93 ∧ c.toNat ≠ 61 ∧
    c.toNat ≠ 33 ∧ c.toNat ≠ 44 ∧ isQuoteChar c = false := by
  simp only [isWordChar, isLowerAZ, isUpperAZ, isDigitChar, Bool.or_eq_true,
    decide_eq_true_eq] at h
  simp only [isSpaceChar, isQuoteChar, Bool.or_eq_false_iff,
    decide_eq_false_iff_not, ne_eq]
  omega

/-- Properties of the canonical value characters. -/
theorem valueChar_props (c : Char) (h : isValueChar c = true) :
    isSpaceChar c = false ∧ c.toNat ≠ 91 ∧ c.toNat ≠ 93 ∧ c.toNat ≠ 61 ∧
    c.toNat ≠ 44 ∧ isQuoteChar c = false := by
  simp only [isValueChar, isWordChar, isLowerAZ, isUpperAZ, isDigitChar,
    Bool.or_eq_true, decide_eq_true_eq] at h
  simp only [isSpaceChar, isQuoteChar, Bool.or_eq_false_iff,
    decide_eq_false_iff_not, ne_eq]
  omega

theorem scanMatch_head {β : Type} (f : List Char → Option β) (l : List Char)
    (r : β) (h : f l = some r) : scanMatch f l = some r := by
  cases l <;> simp [scanMatch, h]

theorem scanMatch_none {β : Type} (f : List Char → Option β)
    (p : List Char → Prop) (hp : ∀ l, p l → f l = none)
    (htail : ∀ a l, p (a :: l) → p l) :
    ∀ l, p l → scanMatch f l = none := by
  intro l
  induction l with
  | nil => intro h; simp [scanMatch, hp [] h]
  | cons a rest ih =>
    intro h
    simp [scanMatch, hp _ h, ih (htail a rest h)]

/-- `matchInAt` fails on any text containing no `[`. -/
theorem matchInAt_no_bracket (l : List Char) (h : ∀ c ∈ l, c.toNat ≠ 91) :
    matchInAt l = none := by
  unfold matchInAt
  by_cases h1 : l.takeWhile isWordChar = []
  · rw [if_pos h1]
  · rw [if_neg h1]
    by_cases h2 : (l.dropWhile isWordChar).takeWhile isSpaceChar = []
    · rw [if_pos h2]
    · rw [if_neg h2]
      cases heq : (l.dropWhile isWordChar).dropWhile isSpaceChar with
      | nil => rfl
      | cons i rest =>
        cases rest with
        | nil => rfl
        | cons n r2 =>
          dsimp only
          by_cases h3 : i.toLower = 'i' ∧ n.toLower = 'n'
          · rw [if_pos h3]
            by_cases h4 : r2.takeWhile isSpaceChar = []
            · rw [if_pos h4]
            · rw [if_neg h4]
              cases heq2 : r2.dropWhile isSpaceChar with
              | nil => rfl
              | cons lb r3 =>
                dsimp only
                have hlb : lb ∈ l := by
                  have m1 : lb ∈ r2.dropWhile isSpaceChar :=
                    heq2 ▸ List.mem_cons_self _ _
                  have m2 : lb ∈ r2 := (List.dropWhile_sublist _).subset m1
                  have m3 : lb ∈ (l.dropWhile isWordChar).dropWhile isSpaceChar :=
                    heq ▸ List.mem_cons_of_mem _ (List.mem_cons_of_mem _ m2)
                  have m4 : lb ∈ l.dropWhile isWordChar :=
                    (List.dropWhile_sublist _).subset m3
                  exact (List.dropWhile_sublist _).subset m4
                rw [if_neg (by simpa using h lb hlb)]
          · rw [if_neg h3]

/-- The `==` matcher fails on any text with at most one `=`. -/
theorem matchCmpAt_eq_none_of_single (l : List Char) (h : l.count '=' ≤ 1) :
    matchCmpAt '=' '=' l = none := by
  unfold matchCmpAt
  dsimp only
  by_cases h1 : l.takeWhile isWordChar = []
  · rw [if_pos h1]
  · rw [if_neg h1]
    cases heq : (l.dropWhile isWordChar).dropWhile isSpaceChar with
    | nil => rfl
    | cons a rest =>
      cases rest with
      | nil => rfl
      | cons b r3 =>
        dsimp only
        by_cases h3 : a = '=' ∧ b = '='
        · exfalso
          have hsub : List.Sublist (a :: b :: r3) l := by
            have s1 : List.Sublist ((l.dropWhile isWordChar).dropWhile isSpaceChar)
                (l.dropWhile isWordChar) := List.dropWhile_sublist _
            have s2 : List.Sublist (l.dropWhile isWordChar) l :=
              List.dropWhile_sublist _
            exact heq ▸ (s1.trans s2)
          have hc : (a :: b :: r3).count '=' ≤ l.count '=' := hsub.count_le '='
          rw [h3.1, h3.2] at hc
          simp [List.count_cons] at hc
          omega
        · rw [if_neg h3]

theorem joinQuoted_chars (vs : List (List Char))
    (h : ∀ v ∈ vs, ∀ c ∈ v, isValueChar c = true) :
    ∀ c ∈ joinQuoted vs,
      c = dqChar ∨ c = ',' ∨ c = ' ' ∨ isValueChar c = true := by
  induction vs with
  | nil => intro c hc; simp [joinQuoted] at hc
  | cons v rest ih =>
    intro c hc
    cases rest with
    | nil =>
      simp only [joinQuoted, quotedVal] at hc
      rcases List.mem_cons.mp hc with hc | hc
      · exact Or.inl hc
      · rcases List.mem_append.mp hc with hc | hc
        · exact Or.inr (Or.inr (Or.inr (h v (List.mem_cons_self _ _) c hc)))
        · exact Or.inl (by simpa using hc)
    | cons u rest2 =>
      simp only [joinQuoted, quotedVal, List.cons_append, List.append_assoc] at hc
      rcases List.mem_cons.mp hc with hc | hc
      · exact Or.inl hc
      · rcases List.mem_append.mp hc with hc | hc
        · exact Or.inr (Or.inr (Or.inr (h v (List.mem_cons_self _ _) c hc)))
        · rcases List.mem_cons.mp hc with hc | hc
          · exact Or.inl hc
          · rcases List.mem_cons.mp hc with hc | hc
            · exact Or.inr (Or.inl hc)
            · rcases List.mem_cons.mp hc with hc | hc
              · exact Or.inr (Or.inr (Or.inl hc))
              · exact ih (fun w hw => h w (List.mem_cons_of_mem _ hw)) c hc

theorem joinQuoted_no_bracket (vs : List (List Char))
    (h : ∀ v ∈ vs, ∀ c ∈ v, isValueChar c = true) :
    ∀ c ∈ joinQuoted vs, (c.toNat ≠ 93 ∧ c.toNat ≠ 91) := by
  intro c hc
  rcases joinQuoted_chars vs h c hc with hc | hc | hc | hc
  · subst hc; exact ⟨by decide, by decide⟩
  · subst hc; exact ⟨by decide, by decide⟩
  · subst hc; exact ⟨by decide, by decide⟩
  · exact ⟨(valueChar_props c hc).2.2.1, (valueChar_props c hc).2.1⟩



theorem takeWhile_cons_pos (p : Char → Bool) (y : Char) (ys : List Char)
    (h : p y = true) : (y :: ys).takeWhile p = y :: ys.takeWhile p := by
  simp [List.takeWhile_cons, h]

theorem dropWhile_cons_pos (p : Char → Bool) (y : Char) (ys : List Char)
    (h : p y = true) : (y :: ys).dropWhile p = ys.dropWhile p := by
  simp [List.dropWhile_cons, h]

theorem matchInAt_canonical (field : List Char) (vs : List (List Char))
    (hf1 : field ≠ []) (hf2 : ∀ c ∈ field, isWordChar c = true)
    (hvs1 : vs ≠ []) (hvs2 : ∀ v ∈ vs, ∀ c ∈ v, isValueChar c = true) :
    matchInAt (mkInExpr field vs) = some (field, joinQuoted vs) := by
  have hnb : ∀ c ∈ joinQuoted vs, (fun c => decide (c.toNat ≠ 93)) c = true := by
    intro c hc
    simp only [decide_eq_true_eq]
    exact (joinQuoted_no_bracket vs hvs2 c hc).1
  have hjq1 : joinQuoted vs ≠ [] := by
    cases vs with
    | nil => exact absurd rfl hvs1
    | cons v rest => cases rest <;> simp [joinQuoted, quotedVal]
  unfold matchInAt mkInExpr
  dsimp only
  rw [takeWhile_append_all _ _ _ hf2, takeWhile_cons_neg _ _ _ (by decide),
    List.append_nil, if_neg hf1]
  rw [dropWhile_append_all _ _ _ hf2, dropWhile_cons_neg _ _ _ (by decide)]
  rw [takeWhile_cons_pos _ _ _ (by decide), takeWhile_cons_neg _ _ _ (by decide),
    if_neg (by decide : ¬ (([' '] : List Char) = []))]
  rw [dropWhile_cons_pos _ _ _ (by decide), dropWhile_cons_neg _ _ _ (by decide)]
  dsimp only
  rw [if_pos (by decide : ('i'.toLower = 'i' ∧ 'n'.toLower = 'n'))]
  rw [takeWhile_cons_pos _ _ _ (by decide), takeWhile_cons_neg _ _ _ (by decide),
    if_neg (by decide : ¬ (([' '] : List Char) = []))]
  rw [dropWhile_cons_pos _ _ _ (by decide), dropWhile_cons_neg _ _ _ (by decide)]
  dsimp only
  rw [if_pos (by decide : (Char.ofNat 91).toNat = 91)]
  rw [takeWhile_append_all _ _ _ hnb, takeWhile_cons_neg _ _ _ (by decide),
    List.append_nil, if_neg hjq1]
  rw [dropWhile_append_all _ _ _ hnb, dropWhile_cons_neg _ _ _ (by decide)]
  rw [if_neg (by decide : ¬ (([Char.ofNat 93] : List Char) = []))]


theorem matchCmpAt_canonical (field : List Char) (op1 : Char) (v : List Char)
    (hf1 : field ≠ []) (hf2 : ∀ c ∈ field, isWordChar c = true)
    (hop : isWordChar op1 = false ∧ isSpaceChar op1 = false)
    (hv1 : v ≠ []) (hv2 : ∀ c ∈ v, isValueChar c = true) :
    matchCmpAt op1 '=' (mkCmpExpr field op1 v) = some (field, v) := by
  have hvq : ∀ c ∈ v, (fun c => ¬ isQuoteChar c : Char → Bool) c = true := by
    intro c hc
    simp [(valueChar_props c (hv2 c hc)).2.2.2.2.2]
  unfold matchCmpAt mkCmpExpr quotedVal
  dsimp only
  rw [takeWhile_append_all _ _ _ hf2, takeWhile_cons_neg _ _ _ (by decide),
    List.append_nil, if_neg hf1]
  rw [dropWhile_append_all _ _ _ hf2, dropWhile_cons_neg _ _ _ (by decide)]
  rw [dropWhile_cons_pos _ _ _ (by decide), dropWhile_cons_neg _ _ _ hop.2]
  dsimp only
  rw [if_pos ⟨rfl, rfl⟩]
  rw [takeWhile_cons_pos _ _ _ (by decide), takeWhile_cons_neg _ _ _ (by decide)]
  rw [dropWhile_cons_pos _ _ _ (by decide), dropWhile_cons_neg _ _ _ (by decide)]
  rw [List.reverse_cons, List.reverse_nil, List.nil_append]
  unfold valueBacktrack tryValueAt
  dsimp only
  rw [if_pos (by decide : isQuoteChar dqChar = true)]
  rw [takeWhile_append_all _ _ _ hvq, takeWhile_cons_neg _ _ _ (by decide),
    List.append_nil, if_neg hv1]

theorem splitCommaGo_nocomma (l : List Char) (h : ∀ c ∈ l, c.toNat ≠ 44) :
    ∀ acc, splitCommaGo l acc = [acc.reverse ++ l] := by
  induction l with
  | nil => intro acc; simp [splitCommaGo]
  | cons c rest ih =>
    intro acc
    simp only [splitCommaGo, if_neg (by simpa using h c (List.mem_cons_self _ _))]
    rw [ih (fun b hb => h b (List.mem_cons_of_mem _ hb)) (c :: acc)]
    simp

theorem splitCommaGo_append (A : List Char) (h : ∀ c ∈ A, c.toNat ≠ 44) :
    ∀ (tail : List Char) (acc : List Char),
      splitCommaGo (A ++ tail) acc = splitCommaGo tail (A.reverse ++ acc) := by
  induction A with
  | nil => intro tail acc; simp
  | cons a rest ih =>
    intro tail acc
    simp only [List.cons_append, splitCommaGo,
      if_neg (by simpa using h a (List.mem_cons_self _ _))]
    simpa using ih (fun b hb => h b (List.mem_cons_of_mem _ hb)) tail (a :: acc)

theorem quotedVal_nocomma (v : List Char) (hv : ∀ c ∈ v, isValueChar c = true) :
    ∀ c ∈ quotedVal v, c.toNat ≠ 44 := by
  intro c hc
  simp only [quotedVal] at hc
  rcases List.mem_cons.mp hc with hc | hc
  · subst hc; decide
  · rcases List.mem_append.mp hc with hc | hc
    · exact (valueChar_props c (hv c hc)).2.2.2.2.1
    · simp only [List.mem_singleton] at hc; subst hc; decide

theorem splitComma_joinQuoted (vs : List (List Char)) (v : List Char)
    (h : ∀ w ∈ v :: vs, ∀ c ∈ w, isValueChar c = true) :
    ∀ acc, splitCommaGo (joinQuoted (v :: vs)) acc =
      (acc.reverse ++ quotedVal v) :: vs.map (fun u => ' ' :: quotedVal u) := by
  induction vs generalizing v with
  | nil =>
    intro acc
    simp only [joinQuoted, List.map_nil]
    exact splitCommaGo_nocomma _ (quotedVal_nocomma v (h v (List.mem_cons_self _ _))) acc
  | cons u rest ih =>
    intro acc
    simp only [joinQuoted]
    rw [splitCommaGo_append _ (quotedVal_nocomma v (h v (List.mem_cons_self _ _)))]
    simp only [splitCommaGo, if_pos (by decide : (',').toNat = 44),
      if_neg (by decide : ¬ ((' ').toNat = 44))]
    rw [ih u (fun w hw => h w (List.mem_cons_of_mem _ hw)) [' ']]
    simp

theorem trim_quotedVal (v : List Char) : trimChars (quotedVal v) = quotedVal v := by
  unfold trimChars quotedVal
  rw [dropWhile_cons_neg _ _ _ (by decide)]
  rw [show (dqChar :: (v ++ [dqChar])).reverse = dqChar :: (v.reverse ++ [dqChar]) from by
    simp]
  rw [dropWhile_cons_neg _ _ _ (by decide)]
  simp

theorem trim_space_quotedVal (v : List Char) :
    trimChars (' ' :: quotedVal v) = quotedVal v := by
  unfold trimChars quotedVal
  rw [dropWhile_cons_pos _ _ _ (by decide), dropWhile_cons_neg _ _ _ (by decide)]
  rw [show (dqChar :: (v ++ [dqChar])).reverse = dqChar :: (v.reverse ++ [dqChar]) from by
    simp]
  rw [dropWhile_cons_neg _ _ _ (by decide)]
  simp

theorem removeQuotes_quotedVal (v : List Char)
    (hv : ∀ c ∈ v, isValueChar c = true) : removeQuotes (quotedVal v) = v := by
  unfold removeQuotes quotedVal
  rw [List.filter_cons_of_neg (by decide)]
  rw [List.filter_append]
  rw [List.filter_cons_of_neg (by decide), List.filter_nil, List.append_nil]
  exact List.filter_eq_self.mpr fun c hc => by
    simp [(valueChar_props c (hv c hc)).2.2.2.2.2]


theorem parseIn_canonical (field : List Char) (vs : List (List Char))
    (hf1 : field ≠ []) (hf2 : ∀ c ∈ field, isWordChar c = true)
    (hvs1 : vs ≠ []) (hvs2 : ∀ v ∈ vs, ∀ c ∈ v, isValueChar c = true) :
    parseFilterExpression (String.mk (mkInExpr field vs)) =
      (some (QFilter.should (vs.map fun v => (String.mk field, String.mk v))), false) := by
  have hblank : (mkInExpr field vs).all isSpaceChar = false := by
    cases field with
    | nil => exact absurd rfl hf1
    | cons c cs =>
      simp [mkInExpr, (wordChar_props c (hf2 c (List.mem_cons_self _ _))).1]
  cases vs with
  | nil => exact absurd rfl hvs1
  | cons v rest =>
    unfold parseFilterExpression
    rw [show (String.mk (mkInExpr field (v :: rest))).toList = mkInExpr field (v :: rest)
      from rfl]
    rw [if_neg (by simp [hblank])]
    rw [scanMatch_head _ _ _
      (matchInAt_canonical field (v :: rest) hf1 hf2 (by simp) hvs2)]
    dsimp only
    rw [show splitComma (joinQuoted (v :: rest)) =
        quotedVal v :: rest.map (fun u => ' ' :: quotedVal u) from by
      unfold splitComma
      rw [splitComma_joinQuoted rest v hvs2 []]
      simp]
    simp only [List.map_cons, List.map_map]
    rw [trim_quotedVal, removeQuotes_quotedVal v (hvs2 v (List.mem_cons_self _ _))]
    rw [List.map_congr_left (fun u (hu : u ∈ rest) => by
      show (String.mk field, String.mk (removeQuotes (trimChars (' ' :: quotedVal u)))) =
        (String.mk field, String.mk u)
      rw [trim_space_quotedVal,
        removeQuotes_quotedVal u (hvs2 u (List.mem_cons_of_mem _ hu))])]

theorem mkCmpExpr_no_bracket (field : List Char) (op1 : Char) (v : List Char)
    (hf2 : ∀ c ∈ field, isWordChar c = true)
    (hv2 : ∀ c ∈ v, isValueChar c = true) (hop : op1.toNat ≠ 91) :
    ∀ c ∈ mkCmpExpr field op1 v, c.toNat ≠ 91 := by
  intro c hc
  have hc2 : c ∈ field ∨ c = ' ' ∨ c = op1 ∨ c = '=' ∨ c = dqChar ∨ c ∈ v := by
    simp only [mkCmpExpr, quotedVal, List.mem_append, List.mem_cons,
      List.mem_singleton] at hc
    tauto
  rcases hc2 with hc2 | hc2 | hc2 | hc2 | hc2 | hc2
  · exact (wordChar_props c (hf2 c hc2)).2.1
  · subst hc2; decide
  · subst hc2; exact hop
  · subst hc2; decide
  · subst hc2; decide
  · exact (valueChar_props c (hv2 c hc2)).2.1

theorem parseEq_canonical (field : List Char) (v : List Char)
    (hf1 : field ≠ []) (hf2 : ∀ c ∈ field, isWordChar c = true)
    (hv1 : v ≠ []) (hv2 : ∀ c ∈ v, isValueChar c = true) :
    parseFilterExpression (String.mk (mkCmpExpr field '=' v)) =
      (some (QFilter.must [(String.mk field, String.mk v)]), false) := by
  have hblank : (mkCmpExpr field '=' v).all isSpaceChar = false := by
    cases field with
    | nil => exact absurd rfl hf1
    | cons c cs =>
      simp [mkCmpExpr, (wordChar_props c (hf2 c (List.mem_cons_self _ _))).1]
  unfold parseFilterExpression
  rw [show (String.mk (mkCmpExpr field '=' v)).toList = mkCmpExpr field '=' v from rfl]
  rw [if_neg (by simp [hblank])]
  rw [scanMatch_none matchInAt (fun l => ∀ c ∈ l, c.toNat ≠ 91)
    (fun l hl => matchInAt_no_bracket l hl)
    (fun a l hl c hc => hl c (List.mem_cons_of_mem _ hc))
    _ (mkCmpExpr_no_bracket field '=' v hf2 hv2 (by decide))]
  rw [scanMatch_head _ _ _
    (matchCmpAt_canonical field '=' v hf1 hf2 (by decide) hv1 hv2)]

theorem mkNeqExpr_count (field : List Char) (v : List Char)
    (hf2 : ∀ c ∈ field, isWordChar c = true)
    (hv2 : ∀ c ∈ v, isValueChar c = true) :
    (mkCmpExpr field '!' v).count '=' ≤ 1 := by
  have hfield : field.count '=' = 0 :=
    List.count_eq_zero.mpr fun hc => by
      exact absurd rfl (wordChar_props '=' (hf2 '=' hc)).2.2.2.1
  have hval : v.count '=' = 0 :=
    List.count_eq_zero.mpr fun hc => by
      exact absurd rfl (valueChar_props '=' (hv2 '=' hc)).2.2.2.1
  simp only [mkCmpExpr, quotedVal, List.count_append, List.count_cons, hfield, hval]
  decide

theorem parseNeq_canonical (field : List Char) (v : List Char)
    (hf1 : field ≠ []) (hf2 : ∀ c ∈ field, isWordChar c = true)
    (hv1 : v ≠ []) (hv2 : ∀ c ∈ v, isValueChar c = true) :
    parseFilterExpression (String.mk (mkCmpExpr field '!' v)) =
      (some (QFilter.mustNot [(String.mk field, String.mk v)]), false) := by
  have hblank : (mkCmpExpr field '!' v).all isSpaceChar = false := by
    cases field with
    | nil => exact absurd rfl hf1
    | cons c cs =>
      simp [mkCmpExpr, (wordChar_props c (hf2 c (List.mem_cons_self _ _))).1]
  unfold parseFilterExpression
  rw [show (String.mk (mkCmpExpr field '!' v)).toList = mkCmpExpr field '!' v from rfl]
  rw [if_neg (by simp [hblank])]
  rw [scanMatch_none matchInAt (fun l => ∀ c ∈ l, c.toNat ≠ 91)
    (fun l hl => matchInAt_no_bracket l hl)
    (fun a l hl c hc => hl c (List.mem_cons_of_mem _ hc))
    _ (mkCmpExpr_no_bracket field '!' v hf2 hv2 (by decide))]
  rw [scanMatch_none (matchCmpAt '=' '=') (fun l => l.count '=' ≤ 1)
    (fun l hl => matchCmpAt_eq_none_of_single l hl)
    (fun a l hl => by simp only [List.count_cons] at hl; omega)
    _ (mkNeqExpr_count field v hf2 hv2)]
  rw [scanMatch_head _ _ _
    (matchCmpAt_canonical field '!' v hf1 hf2 (by decide) hv1 hv2)]

theorem parse_none_warn (expr : String)
    (h : (parseFilterExpression expr).1 = none) :
    (parseFilterExpression expr).2 = true ∨ expr.toList.all isSpaceChar = true := by
  by_cases hb : expr.toList.all isSpaceChar = true
  · exact Or.inr hb
  · left
    unfold parseFilterExpression at h ⊢
    simp only [String.toList] at h hb ⊢
    rw [if_neg (by simpa using hb)] at h ⊢
    cases hin : scanMatch matchInAt expr.data with
    | some r =>
      obtain ⟨f, vs⟩ := r
      rw [hin] at h
      simp at h
    | none =>
      rw [hin] at h
      cases heq : scanMatch (matchCmpAt '=' '=') expr.data with
      | some r =>
        obtain ⟨f, v⟩ := r
        rw [heq] at h
        simp at h
      | none =>
        rw [heq] at h
        cases hneq : scanMatch (matchCmpAt '!' '=') expr.data with
        | some r =>
          obtain ⟨f, v⟩ := r
          rw [hneq] at h
          simp at h
        | none => rfl

/-- C8 amended: the parser maps `field in ["v1", "v2", …]` to a
disjunction (`should`) of per-value equalities with the quotes removed,
`field == "value"` to a single required equality (`must`),
`field != "value"` to a negated equality (`must_not`); it is total, and
whenever it produces no filter it logged the warning unless the input
was empty or whitespace-only (which silently yields no filter). -/
theorem c8_filter_grammar :
    (∀ (field : List Char) (vs : List (List Char)),
      field ≠ [] → (∀ c ∈ field, isWordChar c = true) →
      vs ≠ [] → (∀ v ∈ vs, ∀ c ∈ v, isValueChar c = true) →
      parseFilterExpression (String.mk (mkInExpr field vs)) =
        (some (QFilter.should (vs.map fun v => (String.mk field, String.mk v))),
         false)) ∧
    (∀ (field v : List Char),
      field ≠ [] → (∀ c ∈ field, isWordChar c = true) →
      v ≠ [] → (∀ c ∈ v, isValueChar c = true) →
      parseFilterExpression (String.mk (mkCmpExpr field '=' v)) =
        (some (QFilter.must [(String.mk field, String.mk v)]), false)) ∧
    (∀ (field v : List Char),
      field ≠ [] → (∀ c ∈ field, isWordChar c = true) →
      v ≠ [] → (∀ c ∈ v, isValueChar c = true) →
      parseFilterExpression (String.mk (mkCmpExpr field '!' v)) =
        (some (QFilter.mustNot [(String.mk field, String.mk v)]), false)) ∧
    (∀ expr : String, (parseFilterExpression expr).1 = none →
      (parseFilterExpression expr).2 = true ∨ expr.toList.all isSpaceChar = true) :=
  ⟨parseIn_canonical, parseEq_canonical, parseNeq_canonical, parse_none_warn⟩

/-- C8 witness: the three S6 forms and the unrecognized input, all at
literal inputs. -/
theorem c8_witness :
    parseFilterExpression (String.mk (mkInExpr "fileExtension".toList
        [".ts".toList, ".py".toList])) =
      (some (QFilter.should [("fileExtension", ".ts"), ("fileExtension", ".py")]),
       false) ∧
    parseFilterExpression (String.mk (mkCmpExpr "status".toList '=' "archived".toList)) =
      (some (QFilter.must [("status", "archived")]), false) ∧
    parseFilterExpression (String.mk (mkCmpExpr "status".toList '!' "archived".toList)) =
      (some (QFilter.mustNot [("status", "archived")]), false) ∧
    ((parseFilterExpression "garbage expression").2 = true ∨
      "garbage expression".toList.all isSpaceChar = true) :=
  ⟨c8_filter_grammar.1 "fileExtension".toList [".ts".toList, ".py".toList]
      (by decide) (by decide) (by decide) (by decide),
   c8_filter_grammar.2.1 "status".toList "archived".toList
      (by decide) (by decide) (by decide) (by decide),
   c8_filter_grammar.2.2.1 "status".toList "archived".toList
      (by decide) (by decide) (by decide) (by decide),
   c8_filter_grammar.2.2.2 "garbage expression" (by decide)⟩
